import Mathlib

/-!
Verification of the market-data aggregation core of the stock_news_bot
repository (quote orchestration, technical-indicator computation, and
quarterly financial-statement extraction).

The JavaScript source is shallowly embedded in Lean:
* JS finite numbers are modelled as rationals (`ℚ`); a nullable numeric
  slot is `Option ℚ`, where `none` stands for every value the source
  helper `toNumber` maps to `null` (null, undefined, non-finite numbers,
  and unparseable strings) and `some q` stands for a finite number.
* JS strings are Lean `String`s; JS arrays are Lean `List`s.
* JS `Map` objects whose iteration order is never observed are modelled
  as functions `String → Option α` updated pointwise.
* Asynchronous provider calls and the ambient clock are passed in as
  explicit parameters, so every definition is a pure function of its
  inputs.
-/

namespace StockBot

/-- Embedding of the helper `toNumber` restricted to the `Option ℚ`
representation of nullable numbers: on this representation the cleaning
and parsing performed by the source collapse to the identity (null-like
values are already `none`, finite numbers are already `some q`). -/
def toNumber (value : Option ℚ) : Option ℚ := value

/-- Embedding of the variadic helper `firstFinite`: returns the first
argument that `toNumber` accepts, else `null`. -/
def firstFinite : List (Option ℚ) → Option ℚ
  | [] => none
  | value :: rest =>
    match toNumber value with
    | some parsed => some parsed
    | none => firstFinite rest

/-- Input record of `classifyWeinsteinStage` (`close`, `sma30Week`,
`prevSma30Week`), each field nullable. -/
structure StageInput where
  close : Option ℚ
  sma30Week : Option ℚ
  prevSma30Week : Option ℚ

/-- Embedding of `classifyWeinsteinStage` from the market-data service:
returns the empty string when any input is missing, otherwise classifies
the four Weinstein stages from price versus the 30-week SMA and the SMA
slope, guarding the slope division when the previous SMA is zero. -/
def classifyWeinsteinStage (input : StageInput) : String :=
  match toNumber input.close, toNumber input.sma30Week, toNumber input.prevSma30Week with
  | some close, some sma30Week, some prevSma30Week =>
    let slopePct : ℚ :=
      if prevSma30Week ≠ 0 then ((sma30Week - prevSma30Week) / prevSma30Week) * 100 else 0
    if close ≥ sma30Week ∧ slopePct > 5/100 then "Markup"
    else if ¬(close ≥ sma30Week) ∧ slopePct < -(5/100) then "Markdown"
    else if close ≥ sma30Week then "Accumulation"
    else "Distribution"
  | _, _, _ => ""

/-- Stage rule written from the specification text alone, for comparison
with the embedded code: `slopePct = (sma30w − prevSma30w)/prevSma30w × 100`;
Markup if `close ≥ sma30w` and `slopePct > 0.05`; Markdown if
`close < sma30w` and `slopePct < −0.05`; else Accumulation if
`close ≥ sma30w`; else Distribution. -/
def specWeinsteinStage (close sma30w prevSma30w : ℚ) : String :=
  let slopePct : ℚ := (sma30w - prevSma30w) / prevSma30w * 100
  if close ≥ sma30w ∧ slopePct > 5/100 then "Markup"
  else if close < sma30w ∧ slopePct < -(5/100) then "Markdown"
  else if close ≥ sma30w then "Accumulation"
  else "Distribution"

/-- C5: for all numeric inputs with a nonzero previous SMA the code
classifier agrees with the four-way rule of the specification, and the
four concrete spec examples evaluate to Markup, Markdown, Accumulation
and Distribution respectively. -/
theorem C5_classifyWeinsteinStage_matches_spec :
    (∀ close sma30w prevSma30w : ℚ, prevSma30w ≠ 0 →
      classifyWeinsteinStage ⟨some close, some sma30w, some prevSma30w⟩ =
        specWeinsteinStage close sma30w prevSma30w)
    ∧ classifyWeinsteinStage ⟨some 110, some 100, some 95⟩ = "Markup"
    ∧ classifyWeinsteinStage ⟨some 90, some 100, some 105⟩ = "Markdown"
    ∧ classifyWeinsteinStage ⟨some 105, some 100, some 100⟩ = "Accumulation"
    ∧ classifyWeinsteinStage ⟨some 95, some 100, some 100⟩ = "Distribution" := by
  refine ⟨?_, ?_, ?_, ?_, ?_⟩
  · intro close sma30w prevSma30w h
    simp only [classifyWeinsteinStage, specWeinsteinStage, toNumber, ne_eq, h,
      not_false_eq_true, if_true, ge_iff_le, not_le]
  all_goals simp only [classifyWeinsteinStage, toNumber]; norm_num

/-- Witness for C5: the universally quantified part applied at the first
spec example (close 110, SMA 100, previous SMA 95). -/
theorem C5_classifyWeinsteinStage_matches_spec_witness :
    classifyWeinsteinStage ⟨some 110, some 100, some 95⟩ = specWeinsteinStage 110 100 95 :=
  C5_classifyWeinsteinStage_matches_spec.1 110 100 95 (by norm_num)

/-- C10: the stage classifier is total. With a zero previous SMA the
slope division is skipped, the slope is taken as zero, and the result is
Accumulation or Distribution by the price test alone; with any input
missing the classifier returns the empty string. -/
theorem C10_classifyWeinsteinStage_total :
    (∀ close sma30w : ℚ,
      classifyWeinsteinStage ⟨some close, some sma30w, some 0⟩ =
        if close ≥ sma30w then "Accumulation" else "Distribution")
    ∧ (∀ input : StageInput,
        input.close = none ∨ input.sma30Week = none ∨ input.prevSma30Week = none →
        classifyWeinsteinStage input = "") := by
  constructor
  · intro close sma30w
    simp only [classifyWeinsteinStage, toNumber]
    norm_num
  · rintro ⟨c, s, p⟩ h
    cases c <;> cases s <;> cases p <;> simp_all [classifyWeinsteinStage, toNumber]

/-- Witness for C10: both conjuncts applied at concrete inputs — a zero
previous SMA with close 1 above SMA 0, and an input with missing close. -/
theorem C10_classifyWeinsteinStage_total_witness :
    classifyWeinsteinStage ⟨some 1, some 0, some 0⟩ =
      (if (1 : ℚ) ≥ 0 then "Accumulation" else "Distribution")
    ∧ classifyWeinsteinStage ⟨none, some 1, some 1⟩ = "" :=
  ⟨C10_classifyWeinsteinStage_total.1 1 0,
   C10_classifyWeinsteinStage_total.2 ⟨none, some 1, some 1⟩ (Or.inl rfl)⟩

/-- Embedding of `Number(x.toFixed(d))`: rounds a rational to `d` decimal
places (the JS implementation rounds the decimal string; ties and binary
float artefacts aside, this is rounding to the nearest multiple of
`10^-d`). -/
def jsToFixed (decimals : ℕ) (q : ℚ) : ℚ :=
  ((round (q * 10 ^ decimals) : ℤ) : ℚ) / 10 ^ decimals

/-- Embedding of `calculateSma(values, period, endExclusive)`: null when
the period is non-positive or the window does not fit (reading past the
end of the array yields `undefined`, which `toNumber` nulls), null when
any value in the window is null, else the arithmetic mean of the window
`[endExclusive - period, endExclusive)`. -/
def calculateSma (values : List (Option ℚ)) (period : ℕ) (endExclusive : ℕ) : Option ℚ :=
  if period = 0 ∨ endExclusive < period then none
  else if values.length < endExclusive then none
  else
    let window := (values.take endExclusive).drop (endExclusive - period)
    if window.all Option.isSome then
      some ((window.map (fun v => (toNumber v).getD 0)).sum / (period : ℚ))
    else none

/-- Embedding of `calculateEma(values, period)`: seeds with
`calculateSma(values, period)` (whose `endExclusive` defaults to the
array length), then folds exponential smoothing with multiplier
`2/(period+1)` over the values from index `period` on, skipping nulls,
and rounds the result to 4 decimals. -/
def calculateEma (values : List (Option ℚ)) (period : ℕ) : Option ℚ :=
  if period = 0 ∨ values.length < period then none
  else
    match calculateSma values period values.length with
    | none => none
    | some seed =>
      let multiplier : ℚ := 2 / ((period : ℚ) + 1)
      let ema := (values.drop period).foldl
        (fun ema price =>
          match toNumber price with
          | none => ema
          | some p => (p - ema) * multiplier + ema) seed
      some (jsToFixed 4 ema)

lemma all_isSome_replicate (k : ℕ) (V : ℚ) :
    (List.replicate k (some V)).all Option.isSome = true := by
  induction k with
  | zero => rfl
  | succ k ih => simp [List.replicate_succ, ih]

lemma foldl_ema_replicate (m V : ℚ) (k : ℕ) :
    (List.replicate k (some V)).foldl
      (fun ema price =>
        match toNumber price with
        | none => ema
        | some p => (p - ema) * m + ema) V = V := by
  induction k with
  | zero => rfl
  | succ k ih =>
    rw [List.replicate_succ, List.foldl_cons]
    simpa [toNumber] using ih

/-- C8: the exponentially smoothed average of a constant series of value
`V`, of length at least the period (which is at least one), is exactly
`V` rounded to 4 decimals. -/
theorem C8_calculateEma_constant_series (V : ℚ) (n period : ℕ)
    (h1 : 1 ≤ period) (h2 : period ≤ n) :
    calculateEma (List.replicate n (some V)) period = some (jsToFixed 4 V) := by
  have hp0 : period ≠ 0 := Nat.one_le_iff_ne_zero.mp h1
  have hlen : (List.replicate n (some V)).length = n := List.length_replicate n _
  have hsma : calculateSma (List.replicate n (some V)) period n = some V := by
    rw [calculateSma]
    rw [if_neg (by simp [hp0, Nat.not_lt.mpr h2]), if_neg (by simp [hlen])]
    simp only [List.take_replicate, Nat.min_self, List.drop_replicate,
      Nat.sub_sub_self h2, all_isSome_replicate, if_true, List.map_replicate,
      toNumber, Option.getD_some, List.sum_replicate, nsmul_eq_mul]
    have hper : ((period : ℚ)) ≠ 0 := Nat.cast_ne_zero.mpr hp0
    congr 1
    field_simp
  rw [calculateEma, if_neg (by simp [hp0, hlen, Nat.not_lt.mpr h2]), hlen, hsma]
  simp only [List.drop_replicate, foldl_ema_replicate]

/-- Witness for C8: a series of five copies of 7.123456 with period 3
yields 7.1235 (the constant rounded to 4 decimals). -/
theorem C8_calculateEma_constant_series_witness :
    calculateEma (List.replicate 5 (some (7123456/1000000 : ℚ))) 3 =
      some (jsToFixed 4 (7123456/1000000 : ℚ)) :=
  C8_calculateEma_constant_series (7123456/1000000 : ℚ) 5 3 (by norm_num) (by norm_num)

/-- Embedding of JS `String.prototype.trim`: drops leading and trailing
whitespace. Implemented structurally over the character list so that it
evaluates by kernel reduction. -/
def jsTrim (s : String) : String :=
  ⟨((s.data.dropWhile Char.isWhitespace).reverse.dropWhile Char.isWhitespace).reverse⟩

/-- Splitting of a character list on a separator character, JS
`split` semantics: the empty list yields one empty field. -/
def splitOnCharList (sep : Char) : List Char → List (List Char)
  | [] => [[]]
  | c :: rest =>
    match splitOnCharList sep rest with
    | [] => if c = sep then [[], []] else [[c]]
    | h :: t => if c = sep then [] :: h :: t else (c :: h) :: t

/-- Embedding of JS `String.prototype.split` with a one-character
separator. -/
def jsSplitOnChar (sep : Char) (s : String) : List String :=
  (splitOnCharList sep s.data).map (fun l => ⟨l⟩)

/-- Embedding of JS `Array.prototype.join(sep)`. -/
def joinWith (sep : String) : List String → String
  | [] => ""
  | [part] => part
  | part :: rest => part ++ sep ++ joinWith sep rest

/-- Canonical technical-indicator snapshot: three nullable moving
averages, a stage string (empty when unknown) and a compound
`+`-joined source attribution. -/
structure TechnicalSnapshot where
  ema50 : Option ℚ
  ema200 : Option ℚ
  thirtyWeekSma : Option ℚ
  marketCycleStage : String
  source : String
deriving DecidableEq

/-- Embedding of `classifyStageFromEmaProxy`: the EMA-only proxy stage
rule used when the 30-week SMA is unavailable. The JS input object
`\x7bclose, ema50, ema200\x7d` is passed as three arguments. -/
def classifyStageFromEmaProxy (close ema50 ema200 : Option ℚ) : String :=
  match toNumber close, toNumber ema50, toNumber ema200 with
  | some close, some ema50, some ema200 =>
    if close ≥ ema200 ∧ ema50 ≥ ema200 then "Markup"
    else if close < ema200 ∧ ema50 < ema200 then "Markdown"
    else if close ≥ ema200 then "Accumulation"
    else "Distribution"
  | _, _, _ => ""

/-- Embedding of `mergeTechnicalSource`: splits both sources on `+`,
trims each part, and joins the distinct non-empty parts with `+`,
keeping first-seen order (existing source first). -/
def mergeTechnicalSource (existingSource candidateSource : String) : String :=
  let addParts := fun (sourceParts : List String) (source : String) =>
    let normalized := jsTrim source
    if normalized = "" then sourceParts
    else
      (jsSplitOnChar '+' normalized).foldl
        (fun parts part =>
          let cleanPart := jsTrim part
          if cleanPart ≠ "" ∧ cleanPart ∉ parts then parts ++ [cleanPart] else parts)
        sourceParts
  joinWith "+" (addParts (addParts [] existingSource) candidateSource)

/-- Stage selection inside `mergeTechnicalSnapshots`: the sequentially
reassigned `marketCycleStage` local of the source — first non-empty
trimmed stage (base first), else Markup/Markdown from the price hint
versus the merged 30-week SMA, else the EMA proxy rule. -/
def mergedCycleStage (baseStage candStage : String)
    (close ema50 ema200 thirtyWeekSma : Option ℚ) : String :=
  let stage0 := if jsTrim baseStage ≠ "" then jsTrim baseStage else jsTrim candStage
  let stage1 :=
    if stage0 = "" then
      match close, thirtyWeekSma with
      | some c, some w => if c ≥ w then "Markup" else "Markdown"
      | _, _ => stage0
    else stage0
  if stage1 = "" then classifyStageFromEmaProxy close ema50 ema200 else stage1

/-- Embedding of `mergeTechnicalSnapshots(baseSnapshot, candidateSnapshot,
priceHint)`: null when both inputs are null; otherwise takes the first
finite value per numeric field (base first), the first non-empty trimmed
stage (base first) with two fallback stage derivations, and the merged
source attribution (`unknown-tech` when empty); returns null when every
merged field is empty. -/
def mergeTechnicalSnapshots (baseSnapshot candidateSnapshot : Option TechnicalSnapshot)
    (priceHint : Option ℚ) : Option TechnicalSnapshot :=
  if baseSnapshot = none ∧ candidateSnapshot = none then none
  else
    let close := firstFinite [priceHint]
    let ema50 := firstFinite [baseSnapshot.bind (·.ema50), candidateSnapshot.bind (·.ema50)]
    let ema200 := firstFinite [baseSnapshot.bind (·.ema200), candidateSnapshot.bind (·.ema200)]
    let thirtyWeekSma :=
      firstFinite [baseSnapshot.bind (·.thirtyWeekSma), candidateSnapshot.bind (·.thirtyWeekSma)]
    let marketCycleStage :=
      mergedCycleStage ((baseSnapshot.map (·.marketCycleStage)).getD "")
        ((candidateSnapshot.map (·.marketCycleStage)).getD "") close ema50 ema200 thirtyWeekSma
    if ema50 = none ∧ ema200 = none ∧ thirtyWeekSma = none ∧ marketCycleStage = "" then none
    else
      let mergedSource :=
        mergeTechnicalSource ((baseSnapshot.map (·.source)).getD "")
          ((candidateSnapshot.map (·.source)).getD "")
      some ⟨ema50, ema200, thirtyWeekSma, marketCycleStage,
        if mergedSource = "" then "unknown-tech" else mergedSource⟩

/-- Base snapshot used to exercise the merge: non-null ema50, a stage,
and source attribution `a`. -/
def mergeBaseSnap : TechnicalSnapshot := ⟨some 1, none, none, "Markup", "a"⟩

/-- Candidate snapshot used to exercise the merge: non-null ema200 and
source attribution `b`. -/
def mergeCandSnap : TechnicalSnapshot := ⟨none, some 2, none, "", "b"⟩

/-- C4 counterexample: merging a base whose `source` is the non-empty
string `a` with a candidate whose `source` is `b` yields `source = a+b`,
so the non-empty `source` field of the base is not left unchanged —
refuting the claim for the `source` field at this concrete input. -/
theorem C4_merge_source_counterexample :
    (mergeTechnicalSnapshots (some mergeBaseSnap) (some mergeCandSnap) none).map
        (·.source) = some "a+b"
    ∧ mergeBaseSnap.source = "a" ∧ ("a+b" : String) ≠ "a" := by
  exact ⟨rfl, rfl, by decide⟩

lemma firstFinite_cons_some (q : ℚ) (rest : List (Option ℚ)) :
    firstFinite (some q :: rest) = some q := rfl

lemma mergedCycleStage_of_base (baseStage candStage : String)
    (close e50 e200 sma : Option ℚ) (h : jsTrim baseStage ≠ "") :
    mergedCycleStage baseStage candStage close e50 e200 sma = jsTrim baseStage := by
  simp [mergedCycleStage, h]

/-- C4 as amended: the merge leaves every non-null numeric field of the
base unchanged and keeps a non-empty trimmed base stage, but the
`source` field becomes the `+`-joined deduplicated concatenation of the
base parts followed by the candidate parts (`unknown-tech` when both are
blank) rather than staying equal to the base source. -/
theorem C4_merge_preserves_base_fields :
    ∀ (base cand : TechnicalSnapshot) (price : Option ℚ) (m : TechnicalSnapshot),
      mergeTechnicalSnapshots (some base) (some cand) price = some m →
      (base.ema50.isSome = true → m.ema50 = base.ema50)
      ∧ (base.ema200.isSome = true → m.ema200 = base.ema200)
      ∧ (base.thirtyWeekSma.isSome = true → m.thirtyWeekSma = base.thirtyWeekSma)
      ∧ (jsTrim base.marketCycleStage ≠ "" →
          m.marketCycleStage = jsTrim base.marketCycleStage)
      ∧ m.source = (if mergeTechnicalSource base.source cand.source = ""
                    then "unknown-tech" else mergeTechnicalSource base.source cand.source) := by
  intro base cand price m hm
  simp only [mergeTechnicalSnapshots, Option.some_bind, Option.map_some', Option.getD_some] at hm
  rw [if_neg (by simp)] at hm
  split at hm
  · exact absurd hm (by simp)
  · rw [Option.some_inj] at hm
    subst hm
    refine ⟨?_, ?_, ?_, ?_, rfl⟩
    · intro h
      rcases Option.isSome_iff_exists.mp h with ⟨q, hq⟩
      simp [hq, firstFinite, toNumber]
    · intro h
      rcases Option.isSome_iff_exists.mp h with ⟨q, hq⟩
      simp [hq, firstFinite, toNumber]
    · intro h
      rcases Option.isSome_iff_exists.mp h with ⟨q, hq⟩
      simp [hq, firstFinite, toNumber]
    · intro h
      exact mergedCycleStage_of_base _ _ _ _ _ _ h

/-- Witness for C4 as amended: applied at the concrete base/candidate
pair; the base ema50 and trimmed stage survive the merge. -/
theorem C4_merge_preserves_base_fields_witness :
    ∃ m, mergeTechnicalSnapshots (some mergeBaseSnap) (some mergeCandSnap) none = some m
      ∧ m.ema50 = mergeBaseSnap.ema50
      ∧ m.marketCycleStage = jsTrim mergeBaseSnap.marketCycleStage := by
  refine ⟨⟨some 1, some 2, none, "Markup", "a+b"⟩, rfl, ?_, ?_⟩
  · exact (C4_merge_preserves_base_fields mergeBaseSnap mergeCandSnap none _ rfl).1 rfl
  · exact (C4_merge_preserves_base_fields mergeBaseSnap mergeCandSnap none _ rfl).2.2.2.1
      (by decide)

/-- Test for membership of a character in the JS word class `\w`
(`[A-Za-z0-9_]`). -/
def isWordChar (c : Char) : Bool := c.isAlpha || c.isDigit || c = '_'

/-- Word boundary after a matched word: end of input or a non-word
character. -/
def boundaryAfter : List Char → Bool
  | [] => true
  | c :: _ => !isWordChar c

/-- Embedding of an anchored word regex `^w\b` (for a word `w` ending in
a word character): the key starts with `w` followed by a word boundary. -/
def regexStartWord (w s : String) : Bool :=
  w.data.isPrefixOf s.data && boundaryAfter (s.data.drop w.data.length)

/-- Scanner for `regexContainsWord`: tries to match the (non-empty) word
at every position, requiring a word boundary on both sides. -/
def regexContainsWordAux (ws : List Char) : Bool → List Char → Bool
  | _, [] => false
  | prevIsWord, c :: rest =>
    (!prevIsWord && ws.isPrefixOf (c :: rest) && boundaryAfter ((c :: rest).drop ws.length))
    || regexContainsWordAux ws (isWordChar c) rest

/-- Embedding of an unanchored word regex `\bw\b` for a non-empty word
`w` beginning and ending in word characters. -/
def regexContainsWord (w s : String) : Bool := regexContainsWordAux w.data false s.data

/-- Row of a parsed quarterly table: normalized metric key, display
label and per-quarter nullable values. -/
structure FinancialMetric where
  key : String
  label : String
  values : List (Option ℚ)
deriving DecidableEq

/-- Output of `parseQuarterlyFinancialTable`: ordered quarter labels and
the parsed metric rows. -/
structure ParsedQuarterlyTable where
  quarterLabels : List String
  metrics : List FinancialMetric
deriving DecidableEq

/-- Emitted report row: key, label, kind (`number` or `percent`) and the
per-quarter nullable values. -/
structure FinancialRow where
  key : String
  label : String
  kind : String
  values : List (Option ℚ)
deriving DecidableEq

/-- Embedding of `findFinancialSeries`: the values of the first metric
whose key matches one of the patterns, else the empty series. The JS
regexes are passed as boolean matchers on the key. -/
def findFinancialSeries : List FinancialMetric → List (String → Bool) → List (Option ℚ)
  | [], _ => []
  | metric :: rest, patterns =>
    if patterns.any (fun pattern => pattern metric.key) then metric.values
    else findFinancialSeries rest patterns

/-- Embedding of `hasAnySeriesValue`: some entry parses to a finite
number. -/
def hasAnySeriesValue (values : List (Option ℚ)) : Bool :=
  values.any (fun value => (toNumber value).isSome)

/-- Embedding of `normalizeSeriesLength`: exactly `targetLength` slots,
each the rounded parse of the corresponding input slot or null (reading
past the end yields null). -/
def normalizeSeriesLength (values : List (Option ℚ)) (targetLength : ℕ) (decimals : ℕ) :
    List (Option ℚ) :=
  (List.range targetLength).map (fun index =>
    match toNumber (values.getD index none) with
    | none => none
    | some parsed => some (jsToFixed decimals parsed))

/-- Value of `Number.EPSILON` (2⁻⁵²), the zero-denominator guard of the
growth computation. -/
def NUMBER_EPSILON : ℚ := 1 / 2 ^ 52

/-- Embedding of `computeGrowthSeries`: percentage growth against the
value `lag` quarters earlier, null when either operand is null, the
index precedes the lag, or the lagged value is (almost) zero. -/
def computeGrowthSeries (values : List (Option ℚ)) (lag : ℕ) : List (Option ℚ) :=
  values.mapIdx (fun index currentRaw =>
    if index < lag then none
    else
      match toNumber currentRaw, toNumber (values.getD (index - lag) none) with
      | some current, some previous =>
        if |previous| < NUMBER_EPSILON then none
        else some (jsToFixed 2 ((current - previous) / previous * 100))
      | _, _ => none)

/-- Matchers of the JS regex lists for the sales series
(`^sales\b`, `^revenue\b`, `^total income\b`). -/
def salesKeyPatterns : List (String → Bool) :=
  [regexStartWord "sales", regexStartWord "revenue", regexStartWord "total income"]

/-- Matchers for the operating-profit series (`^operating profit\b`,
`^op profit\b`, `^ebitda\b`). -/
def operatingProfitKeyPatterns : List (String → Bool) :=
  [regexStartWord "operating profit", regexStartWord "op profit", regexStartWord "ebitda"]

/-- Matchers for the PAT series (`^net profit\b`, `\bprofit after tax\b`,
`^pat\b`). -/
def patKeyPatterns : List (String → Bool) :=
  [regexStartWord "net profit", regexContainsWord "profit after tax", regexStartWord "pat"]

/-- Matchers for the OPM series (`^opm\b`, `\boperating margin\b`). -/
def opmKeyPatterns : List (String → Bool) :=
  [regexStartWord "opm", regexContainsWord "operating margin"]

/-- Matchers for the EPS series (`^eps\b`). -/
def epsKeyPatterns : List (String → Bool) :=
  [regexStartWord "eps"]

/-- One conditional row push of `buildQuarterlyFinancialRows`: the row is
emitted only when its series has at least one non-null value. -/
def rowIfAny (key label kind : String) (series : List (Option ℚ)) : List FinancialRow :=
  if hasAnySeriesValue series then [⟨key, label, kind, series⟩] else []

/-- Embedding of `buildQuarterlyFinancialRows`: derives the nine
candidate rows from the parsed metrics, each normalized to exactly one
value per quarter label, and emits a row only when its series has at
least one non-null value. -/
def buildQuarterlyFinancialRows (parsedTable : ParsedQuarterlyTable) : List FinancialRow :=
  let metrics := parsedTable.metrics
  let valueCount := parsedTable.quarterLabels.length
  if valueCount = 0 then []
  else
    let salesSeries := normalizeSeriesLength (findFinancialSeries metrics salesKeyPatterns)
      valueCount 2
    let operatingProfitSeries :=
      normalizeSeriesLength (findFinancialSeries metrics operatingProfitKeyPatterns) valueCount 2
    let patSeries := normalizeSeriesLength (findFinancialSeries metrics patKeyPatterns)
      valueCount 2
    let opmSeries := normalizeSeriesLength (findFinancialSeries metrics opmKeyPatterns)
      valueCount 2
    let epsSeries := normalizeSeriesLength (findFinancialSeries metrics epsKeyPatterns)
      valueCount 2
    let salesQoq := normalizeSeriesLength (computeGrowthSeries salesSeries 1) valueCount 2
    let salesYoy := normalizeSeriesLength (computeGrowthSeries salesSeries 4) valueCount 2
    let patQoq := normalizeSeriesLength (computeGrowthSeries patSeries 1) valueCount 2
    let patYoy := normalizeSeriesLength (computeGrowthSeries patSeries 4) valueCount 2
    rowIfAny "sales" "Sales" "number" salesSeries
      ++ rowIfAny "sales_qoq" "Sales QoQ %" "percent" salesQoq
      ++ rowIfAny "sales_yoy" "Sales YoY %" "percent" salesYoy
      ++ rowIfAny "operating_profit" "Operating Profit" "number" operatingProfitSeries
      ++ rowIfAny "pat" "PAT" "number" patSeries
      ++ rowIfAny "pat_qoq" "PAT QoQ %" "percent" patQoq
      ++ rowIfAny "pat_yoy" "PAT YoY %" "percent" patYoy
      ++ rowIfAny "opm" "OPM %" "percent" opmSeries
      ++ rowIfAny "eps" "EPS" "number" epsSeries

lemma normalizeSeriesLength_length (values : List (Option ℚ)) (targetLength decimals : ℕ) :
    (normalizeSeriesLength values targetLength decimals).length = targetLength := by
  simp [normalizeSeriesLength]

lemma mem_rowIfAny {row : FinancialRow} (key label kind : String) (series : List (Option ℚ))
    (hmem : row ∈ rowIfAny key label kind series) :
    row.values = series ∧ hasAnySeriesValue series = true := by
  by_cases h : hasAnySeriesValue series
  · simp only [rowIfAny, if_pos h, List.mem_singleton] at hmem
    subst hmem
    exact ⟨rfl, h⟩
  · simp [rowIfAny, h] at hmem

/-- C7: every row emitted from a parsed quarterly table has exactly one
value per quarter label, and is only emitted when its series still
contains at least one non-null value (normalization preserves nullness,
so the underlying metric series has a non-null value as well). -/
theorem C7_quarterly_rows_invariant :
    ∀ (parsedTable : ParsedQuarterlyTable) (row : FinancialRow),
      row ∈ buildQuarterlyFinancialRows parsedTable →
      row.values.length = parsedTable.quarterLabels.length
      ∧ row.values.any Option.isSome = true := by
  intro t row hmem
  by_cases h0 : t.quarterLabels.length = 0
  · simp [buildQuarterlyFinancialRows, h0] at hmem
  · simp only [buildQuarterlyFinancialRows, if_neg h0, List.mem_append] at hmem
    rcases hmem with ((((((((h | h) | h) | h) | h) | h) | h) | h) | h) <;>
      · obtain ⟨hv, ha⟩ := mem_rowIfAny _ _ _ _ h
        rw [hv]
        exact ⟨normalizeSeriesLength_length _ _ _, ha⟩

/-- Concrete one-quarter table with a single sales metric, used to
exercise the row builder. -/
def sampleParsedTable : ParsedQuarterlyTable :=
  ⟨["Mar 2023"], [⟨"sales", "Sales", [some 100]⟩]⟩

/-- Concrete row produced for `sampleParsedTable`. -/
def sampleSalesRow : FinancialRow := ⟨"sales", "Sales", "number", [some 100]⟩

/-- Witness for C7: the sales row built from the concrete table has one
value per quarter label and a non-null value. -/
lemma sample_rows_eq : buildQuarterlyFinancialRows sampleParsedTable = [sampleSalesRow] := by
  have hfix : jsToFixed 2 100 = 100 := by
    rw [jsToFixed]; norm_num
  have hlen : sampleParsedTable.quarterLabels.length = 1 := rfl
  have hsalesFind : findFinancialSeries sampleParsedTable.metrics salesKeyPatterns =
      [some 100] := by decide
  have hop : findFinancialSeries sampleParsedTable.metrics operatingProfitKeyPatterns = [] := by
    decide
  have hpat : findFinancialSeries sampleParsedTable.metrics patKeyPatterns = [] := by decide
  have hopm : findFinancialSeries sampleParsedTable.metrics opmKeyPatterns = [] := by decide
  have heps : findFinancialSeries sampleParsedTable.metrics epsKeyPatterns = [] := by decide
  have hsales : normalizeSeriesLength [some 100] 1 2 = [some 100] := by
    simp [normalizeSeriesLength, toNumber, List.range_succ, hfix]
  have hempty : normalizeSeriesLength [] 1 2 = [none] := by decide
  have hnone : normalizeSeriesLength [none] 1 2 = [none] := by decide
  have hgrow1 : computeGrowthSeries [some 100] 1 = [none] := by decide
  have hgrow4 : computeGrowthSeries [some 100] 4 = [none] := by decide
  have hgrowN1 : computeGrowthSeries [none] 1 = [none] := by decide
  have hgrowN4 : computeGrowthSeries [none] 4 = [none] := by decide
  have hrowNone : ∀ key label kind, rowIfAny key label kind [none] = [] := fun _ _ _ => rfl
  have hrowSome : rowIfAny "sales" "Sales" "number" [some 100] = [sampleSalesRow] := by decide
  simp only [buildQuarterlyFinancialRows, hlen, hsalesFind, hop, hpat, hopm, heps, hsales,
    hempty, hnone, hgrow1, hgrow4, hgrowN1, hgrowN4, hrowNone, hrowSome, one_ne_zero,
    if_false, List.append_nil, List.nil_append]

theorem C7_quarterly_rows_invariant_witness :
    sampleSalesRow.values.length = sampleParsedTable.quarterLabels.length
    ∧ sampleSalesRow.values.any Option.isSome = true :=
  C7_quarterly_rows_invariant sampleParsedTable sampleSalesRow
    (sample_rows_eq ▸ List.mem_singleton.mpr rfl)

/-- Character list of the URL prefix recognized by
`extractScreenerCompanyCode`. -/
def screenerPrefix : List Char := "screener.in/company/".data

/-- Scanner for `extractScreenerCompanyCode`: leftmost occurrence of the
prefix (case-insensitive) followed by at least five digits; the first
six digits (greedy `\d{5,6}`) are captured. -/
def extractScreenerCompanyCodeAux : List Char → Option (List Char)
  | [] => none
  | c :: rest =>
    if ((c :: rest).take screenerPrefix.length).map Char.toLower = screenerPrefix then
      let digits := ((c :: rest).drop screenerPrefix.length).takeWhile Char.isDigit
      if 5 ≤ digits.length then some (digits.take 6)
      else extractScreenerCompanyCodeAux rest
    else extractScreenerCompanyCodeAux rest

/-- Embedding of `extractScreenerCompanyCode`: the 5-6 digit company code
of a screener.in company URL contained in the input, else empty. -/
def extractScreenerCompanyCode (input : String) : String :=
  match extractScreenerCompanyCodeAux input.data with
  | some digits => ⟨digits⟩
  | none => ""

/-- Character class `[A-Z0-9\-_.]` of the symbol-shape regex. -/
def isAllowedSymbolChar (c : Char) : Bool :=
  ('A' ≤ c && c ≤ 'Z') || ('0' ≤ c && c ≤ '9') || c = '-' || c = '_' || c = '.'

/-- Test for `/^\d\x7b5,6\x7d$/`: five or six characters, all digits. -/
def isNumeric5or6 (l : List Char) : Bool :=
  (l.length = 5 || l.length = 6) && l.all Char.isDigit

/-- Resolution of the lazy group of
`/^([A-Z0-9\-_.]+?)(?:\.(NSE|NS|BSE|BO))?$/` on an all-allowed non-empty
input: the longest exchange suffix leaving a non-empty symbol part (at
most one of the four can be a suffix), else no exchange part. -/
def matchSymbolSuffix (trimmed : List Char) : Option (List Char × String) :=
  if ".NSE".data.isSuffixOf trimmed && decide (5 ≤ trimmed.length) then
    some (trimmed.take (trimmed.length - 4), "NSE")
  else if ".BSE".data.isSuffixOf trimmed && decide (5 ≤ trimmed.length) then
    some (trimmed.take (trimmed.length - 4), "BSE")
  else if ".NS".data.isSuffixOf trimmed && decide (4 ≤ trimmed.length) then
    some (trimmed.take (trimmed.length - 3), "NS")
  else if ".BO".data.isSuffixOf trimmed && decide (4 ≤ trimmed.length) then
    some (trimmed.take (trimmed.length - 3), "BO")
  else none

/-- Embedding of `symbolPart.replace(/\.(NS|BO)$/i, '')` on an
already-uppercased character list. -/
def dropNsBoSuffix (l : List Char) : List Char :=
  if ".NS".data.isSuffixOf l || ".BO".data.isSuffixOf l then l.take (l.length - 3) else l

/-- Embedding of `normalizeIndianSymbol` (utils/symbols): canonicalizes
free-form symbol input to `BASE.NS`/`BASE.BO`; screener URLs are mapped
to their numeric code, 5-6 digit numeric bases default to `.BO`, inputs
with characters outside the symbol class are returned cleaned but
unsuffixed. -/
def normalizeIndianSymbol (input : String) : String :=
  if input = "" then ""
  else
    let screenerCode := extractScreenerCompanyCode input
    let normalizedInput := if screenerCode = "" then input else screenerCode
    let trimmed : List Char :=
      ((jsTrim normalizedInput).data.map Char.toUpper).filter (fun c => !c.isWhitespace)
    if trimmed = [] then ""
    else if !(trimmed.all isAllowedSymbolChar) then ⟨trimmed⟩
    else
      match matchSymbolSuffix trimmed with
      | none =>
        let base := dropNsBoSuffix trimmed
        if isNumeric5or6 base then String.mk base ++ ".BO" else String.mk base ++ ".NS"
      | some (symbolPart, exchangePart) =>
        let base := dropNsBoSuffix symbolPart
        if isNumeric5or6 base && (exchangePart = "NSE" || exchangePart = "NS") then
          String.mk base ++ ".BO"
        else
          String.mk base ++ (if exchangePart = "NSE" || exchangePart = "NS" then ".NS" else ".BO")

/-- Embedding of `stripExchangeSuffix` (utils/symbols): uppercases and
removes one trailing `.NS`/`.BO`. -/
def stripExchangeSuffix (symbol : String) : String :=
  let upper := symbol.data.map Char.toUpper
  if ".NS".data.isSuffixOf upper || ".BO".data.isSuffixOf upper then
    ⟨upper.take (upper.length - 3)⟩
  else ⟨upper⟩

/-- First-seen-order deduplication with an accumulator of already seen
entries, modelling iteration order of a JS `Set`. -/
def dedupFirstAux (seen : List String) : List String → List String
  | [] => []
  | s :: rest =>
    if s ∈ seen then dedupFirstAux seen rest
    else s :: dedupFirstAux (seen ++ [s]) rest

/-- Embedding of `asList`: normalizes every input symbol, drops empty
results, and deduplicates keeping first-occurrence order
(`Array.from(new Set(...))`). -/
def asList (input : List String) : List String :=
  dedupFirstAux [] ((input.map normalizeIndianSymbol).filter (fun symbol => symbol ≠ ""))

lemma mem_dedupFirstAux :
    ∀ (l seen : List String) (s : String), s ∈ dedupFirstAux seen l → s ∈ l ∧ s ∉ seen := by
  intro l
  induction l with
  | nil => intro seen s h; simp [dedupFirstAux] at h
  | cons a rest ih =>
    intro seen s h
    rw [dedupFirstAux] at h
    by_cases ha : a ∈ seen
    · rw [if_pos ha] at h
      obtain ⟨h1, h2⟩ := ih seen s h
      exact ⟨List.mem_cons_of_mem _ h1, h2⟩
    · rw [if_neg ha] at h
      rcases List.mem_cons.mp h with rfl | h
      · exact ⟨List.mem_cons_self _ _, ha⟩
      · obtain ⟨h1, h2⟩ := ih (seen ++ [a]) s h
        refine ⟨List.mem_cons_of_mem _ h1, fun hs => h2 ?_⟩
        exact List.mem_append_left _ hs

lemma nodup_dedupFirstAux : ∀ (l seen : List String), (dedupFirstAux seen l).Nodup := by
  intro l
  induction l with
  | nil => intro seen; simp [dedupFirstAux]
  | cons a rest ih =>
    intro seen
    rw [dedupFirstAux]
    by_cases ha : a ∈ seen
    · rw [if_pos ha]; exact ih seen
    · rw [if_neg ha]
      refine List.nodup_cons.mpr ⟨fun hmem => ?_, ih (seen ++ [a])⟩
      exact (mem_dedupFirstAux rest (seen ++ [a]) a hmem).2
        (List.mem_append_right _ (List.mem_singleton.mpr rfl))

lemma asList_nodup (input : List String) : (asList input).Nodup :=
  nodup_dedupFirstAux _ []

lemma asList_mem_ne_empty (input : List String) (s : String) (h : s ∈ asList input) :
    s ≠ "" := by
  have h1 := (mem_dedupFirstAux _ _ _ h).1
  exact of_decide_eq_true (List.mem_filter.mp h1).2

/-- Canonical quote shape produced by `normalizeQuoteShape`: nullable
numbers are `Option ℚ`, string fields use the empty string for the JS
empty/missing value, and `providerTrace` is the append-only audit log. -/
structure Quote where
  symbol : String
  shortName : String
  exchange : String
  currency : String
  regularMarketPrice : Option ℚ
  regularMarketChange : Option ℚ
  regularMarketChangePercent : Option ℚ
  regularMarketOpen : Option ℚ
  previousClose : Option ℚ
  dayHigh : Option ℚ
  dayLow : Option ℚ
  regularMarketVolume : Option ℚ
  averageDailyVolume3Month : Option ℚ
  marketCap : Option ℚ
  fiftyTwoWeekLow : Option ℚ
  fiftyTwoWeekHigh : Option ℚ
  peRatio : Option ℚ
  eps : Option ℚ
  pbRatio : Option ℚ
  ema50 : Option ℚ
  ema200 : Option ℚ
  thirtyWeekSma : Option ℚ
  marketCycleStage : String
  faceValue : Option ℚ
  vwap : Option ℚ
  upperCircuit : Option ℚ
  lowerCircuit : Option ℚ
  deliveryToTradedQuantity : Option ℚ
  industry : String
  isin : String
  lastUpdateTime : String
  source : String
  dataStatus : String
  providerTrace : List String
deriving DecidableEq

/-- Vendor-shaped input of `normalizeQuoteShape`: the canonical fields
plus the alias fields the normalizer consults (`lastPrice`, `change`,
`open`, `volume`, `pe`, `pb`, ...). The JS field `open` is named
`openPrice` (`open` is a Lean keyword). -/
structure RawQuote where
  symbol : String
  shortName : String
  longName : String
  exchange : String
  currency : String
  regularMarketPrice : Option ℚ
  lastPrice : Option ℚ
  previousClose : Option ℚ
  dayHigh : Option ℚ
  dayLow : Option ℚ
  regularMarketDayHigh : Option ℚ
  regularMarketDayLow : Option ℚ
  regularMarketChange : Option ℚ
  change : Option ℚ
  regularMarketChangePercent : Option ℚ
  changePercent : Option ℚ
  regularMarketOpen : Option ℚ
  openPrice : Option ℚ
  regularMarketVolume : Option ℚ
  volume : Option ℚ
  averageDailyVolume3Month : Option ℚ
  averageVolume : Option ℚ
  marketCap : Option ℚ
  fiftyTwoWeekLow : Option ℚ
  fiftyTwoWeekHigh : Option ℚ
  peRatio : Option ℚ
  pe : Option ℚ
  eps : Option ℚ
  pbRatio : Option ℚ
  pb : Option ℚ
  ema50 : Option ℚ
  ema200 : Option ℚ
  thirtyWeekSma : Option ℚ
  marketCycleStage : String
  faceValue : Option ℚ
  vwap : Option ℚ
  upperCircuit : Option ℚ
  lowerCircuit : Option ℚ
  deliveryToTradedQuantity : Option ℚ
  industry : String
  isin : String
  lastUpdateTime : String
  source : String
  dataStatus : String
  providerTrace : List String
deriving DecidableEq

/-- Embedding of `defaultExchangeFromSymbol`. -/
def defaultExchangeFromSymbol (symbol : String) : String :=
  if ".BO".data.isSuffixOf symbol.data then "BSE" else "NSE"

/-- Embedding of `normalizeQuoteShape`: null when the symbol does not
normalize; otherwise fills price from the alias cascade, derives
change/changePercent from price and previousClose when absent (percent
only for a truthy, i.e. non-zero, previousClose), and defaults
shortName/exchange/currency/source/dataStatus. -/
def normalizeQuoteShape (inputQuote : RawQuote) : Option Quote :=
  let symbol := normalizeIndianSymbol inputQuote.symbol
  if symbol = "" then none
  else
    let previousClose := firstFinite [inputQuote.previousClose]
    let regularMarketPrice := firstFinite [inputQuote.regularMarketPrice, inputQuote.lastPrice,
      previousClose, inputQuote.dayHigh, inputQuote.dayLow]
    let change0 := firstFinite [inputQuote.regularMarketChange, inputQuote.change]
    let changePct0 :=
      firstFinite [inputQuote.regularMarketChangePercent, inputQuote.changePercent]
    let regularMarketChange :=
      match change0, regularMarketPrice, previousClose with
      | none, some p, some pc => some (jsToFixed 4 (p - pc))
      | c, _, _ => c
    let regularMarketChangePercent :=
      match changePct0, regularMarketChange, previousClose with
      | none, some c, some pc => if pc ≠ 0 then some (jsToFixed 4 (c / pc * 100)) else none
      | cp, _, _ => cp
    some {
      symbol := symbol
      shortName := if inputQuote.shortName ≠ "" then inputQuote.shortName
        else if inputQuote.longName ≠ "" then inputQuote.longName
        else stripExchangeSuffix symbol
      exchange := if inputQuote.exchange ≠ "" then inputQuote.exchange
        else defaultExchangeFromSymbol symbol
      currency := if inputQuote.currency ≠ "" then inputQuote.currency else "INR"
      regularMarketPrice := regularMarketPrice
      regularMarketChange := regularMarketChange
      regularMarketChangePercent := regularMarketChangePercent
      regularMarketOpen := firstFinite [inputQuote.regularMarketOpen, inputQuote.openPrice]
      previousClose := previousClose
      dayHigh := firstFinite [inputQuote.dayHigh, inputQuote.regularMarketDayHigh]
      dayLow := firstFinite [inputQuote.dayLow, inputQuote.regularMarketDayLow]
      regularMarketVolume := firstFinite [inputQuote.regularMarketVolume, inputQuote.volume]
      averageDailyVolume3Month :=
        firstFinite [inputQuote.averageDailyVolume3Month, inputQuote.averageVolume]
      marketCap := firstFinite [inputQuote.marketCap]
      fiftyTwoWeekLow := firstFinite [inputQuote.fiftyTwoWeekLow]
      fiftyTwoWeekHigh := firstFinite [inputQuote.fiftyTwoWeekHigh]
      peRatio := firstFinite [inputQuote.peRatio, inputQuote.pe]
      eps := firstFinite [inputQuote.eps]
      pbRatio := firstFinite [inputQuote.pbRatio, inputQuote.pb]
      ema50 := firstFinite [inputQuote.ema50]
      ema200 := firstFinite [inputQuote.ema200]
      thirtyWeekSma := firstFinite [inputQuote.thirtyWeekSma]
      marketCycleStage := inputQuote.marketCycleStage
      faceValue := firstFinite [inputQuote.faceValue]
      vwap := firstFinite [inputQuote.vwap]
      upperCircuit := firstFinite [inputQuote.upperCircuit]
      lowerCircuit := firstFinite [inputQuote.lowerCircuit]
      deliveryToTradedQuantity := firstFinite [inputQuote.deliveryToTradedQuantity]
      industry := inputQuote.industry
      isin := inputQuote.isin
      lastUpdateTime := inputQuote.lastUpdateTime
      source := if inputQuote.source ≠ "" then inputQuote.source else "unknown"
      dataStatus := if inputQuote.dataStatus ≠ "" then inputQuote.dataStatus else "live"
      providerTrace := inputQuote.providerTrace }

/-- Embedding of `isUsableQuote`: a present, strictly positive price. -/
def isUsableQuote (quote : Quote) : Bool :=
  match quote.regularMarketPrice with
  | some price => price > 0
  | none => false

/-- Embedding of `isMissingValue` at numeric fields (null/undefined). -/
def isMissingNum (value : Option ℚ) : Bool := value.isNone

/-- Embedding of `isMissingValue` at string fields (empty string). -/
def isMissingStr (value : String) : Bool := value = ""

/-- Embedding of `Array.prototype.slice(-n)`: the last `n` entries. -/
def takeLast {α : Type} (n : ℕ) (l : List α) : List α := l.drop (l.length - n)

/-- Test for a contiguous occurrence of `pat` inside `l`. -/
def isInfixOfList (pat : List Char) : List Char → Bool
  | [] => pat.isEmpty
  | c :: rest => pat.isPrefixOf (c :: rest) || isInfixOfList pat rest

/-- Embedding of JS `String.prototype.includes`. -/
def jsIncludes (s pat : String) : Bool := isInfixOfList pat.data s.data

/-- Embedding of `createUnavailableQuote(symbol, reason, staleValue,
attempts)`: with a stale cache value, that quote marked `stale` with
source suffixed `:stale` (unless already present); else a fully null
`unavailable` quote built through `normalizeQuoteShape`. -/
def createUnavailableQuote (symbol reason : String) (staleValue : Option Quote)
    (attempts : List String) : Option Quote :=
  match staleValue with
  | some staleQ =>
    let rawSource := if staleQ.source ≠ "" then staleQ.source else "unknown"
    let staleSource := if jsIncludes rawSource ":stale" then rawSource
      else rawSource ++ ":stale"
    some { staleQ with
      dataStatus := "stale"
      source := staleSource
      providerTrace :=
        takeLast 40 (staleQ.providerTrace ++ attempts ++ ["stale-cache:" ++ reason]) }
  | none =>
    normalizeQuoteShape {
      symbol := symbol
      shortName := stripExchangeSuffix symbol
      longName := ""
      exchange := defaultExchangeFromSymbol symbol
      currency := "INR"
      regularMarketPrice := none
      lastPrice := none
      previousClose := none
      dayHigh := none
      dayLow := none
      regularMarketDayHigh := none
      regularMarketDayLow := none
      regularMarketChange := none
      change := none
      regularMarketChangePercent := none
      changePercent := none
      regularMarketOpen := none
      openPrice := none
      regularMarketVolume := none
      volume := none
      averageDailyVolume3Month := none
      averageVolume := none
      marketCap := none
      fiftyTwoWeekLow := none
      fiftyTwoWeekHigh := none
      peRatio := none
      pe := none
      eps := none
      pbRatio := none
      pb := none
      ema50 := none
      ema200 := none
      thirtyWeekSma := none
      marketCycleStage := ""
      faceValue := none
      vwap := none
      upperCircuit := none
      lowerCircuit := none
      deliveryToTradedQuantity := none
      industry := ""
      isin := ""
      lastUpdateTime := ""
      source := "unavailable"
      dataStatus := "unavailable"
      providerTrace := takeLast 40 (attempts ++ ["unavailable:" ++ reason]) }

/-- One numeric step of the fillable-field loop of
`mergeQuoteMissingFields`: the merged value plus the recorded field name
when a fill happened. -/
def fillNum (baseValue candValue : Option ℚ) (name : String) : Option ℚ × Option String :=
  if isMissingNum baseValue && !(isMissingNum candValue) then (candValue, some name)
  else (baseValue, none)

/-- One string step of the fillable-field loop of
`mergeQuoteMissingFields`. -/
def fillStr (baseValue candValue : String) (name : String) : String × Option String :=
  if isMissingStr baseValue && !(isMissingStr candValue) then (candValue, some name)
  else (baseValue, none)

/-- Embedding of `mergeQuoteMissingFields(baseQuote, candidateQuote,
provider)` together with the internal `filledFields` list: copies
candidate values into missing fields of the base (in source order),
replaces a missing or placeholder (base-symbol) `shortName`, and appends
one `enrich:provider(fields)` trace entry, capped at 40, exactly when at
least one field was filled. -/
def mergeQuoteMissingFieldsCore (baseQuote candidateQuote : Quote) (provider : String) :
    Quote × List String :=
  let f1 := fillNum baseQuote.regularMarketVolume candidateQuote.regularMarketVolume
    "regularMarketVolume"
  let f2 := fillNum baseQuote.averageDailyVolume3Month candidateQuote.averageDailyVolume3Month
    "averageDailyVolume3Month"
  let f3 := fillNum baseQuote.marketCap candidateQuote.marketCap "marketCap"
  let f4 := fillNum baseQuote.peRatio candidateQuote.peRatio "peRatio"
  let f5 := fillNum baseQuote.eps candidateQuote.eps "eps"
  let f6 := fillNum baseQuote.pbRatio candidateQuote.pbRatio "pbRatio"
  let f7 := fillNum baseQuote.ema50 candidateQuote.ema50 "ema50"
  let f8 := fillNum baseQuote.ema200 candidateQuote.ema200 "ema200"
  let f9 := fillNum baseQuote.thirtyWeekSma candidateQuote.thirtyWeekSma "thirtyWeekSma"
  let f10 := fillStr baseQuote.marketCycleStage candidateQuote.marketCycleStage
    "marketCycleStage"
  let f11 := fillNum baseQuote.vwap candidateQuote.vwap "vwap"
  let f12 := fillNum baseQuote.upperCircuit candidateQuote.upperCircuit "upperCircuit"
  let f13 := fillNum baseQuote.lowerCircuit candidateQuote.lowerCircuit "lowerCircuit"
  let f14 := fillNum baseQuote.deliveryToTradedQuantity candidateQuote.deliveryToTradedQuantity
    "deliveryToTradedQuantity"
  let f15 := fillStr baseQuote.industry candidateQuote.industry "industry"
  let f16 := fillStr baseQuote.isin candidateQuote.isin "isin"
  let f17 := fillNum baseQuote.faceValue candidateQuote.faceValue "faceValue"
  let f18 := fillNum baseQuote.dayHigh candidateQuote.dayHigh "dayHigh"
  let f19 := fillNum baseQuote.dayLow candidateQuote.dayLow "dayLow"
  let f20 := fillNum baseQuote.regularMarketOpen candidateQuote.regularMarketOpen
    "regularMarketOpen"
  let f21 := fillNum baseQuote.previousClose candidateQuote.previousClose "previousClose"
  let f22 := fillNum baseQuote.fiftyTwoWeekLow candidateQuote.fiftyTwoWeekLow "fiftyTwoWeekLow"
  let f23 := fillNum baseQuote.fiftyTwoWeekHigh candidateQuote.fiftyTwoWeekHigh
    "fiftyTwoWeekHigh"
  let f24 := fillStr baseQuote.lastUpdateTime candidateQuote.lastUpdateTime "lastUpdateTime"
  let fShort :=
    if (isMissingStr baseQuote.shortName
          || baseQuote.shortName = stripExchangeSuffix baseQuote.symbol)
        && !(isMissingStr candidateQuote.shortName) then
      (candidateQuote.shortName, some "shortName")
    else (baseQuote.shortName, (none : Option String))
  let filledFields := [f1.2, f2.2, f3.2, f4.2, f5.2, f6.2, f7.2, f8.2, f9.2, f10.2, f11.2,
    f12.2, f13.2, f14.2, f15.2, f16.2, f17.2, f18.2, f19.2, f20.2, f21.2, f22.2, f23.2, f24.2,
    fShort.2].filterMap id
  let providerTrace :=
    if filledFields ≠ [] then
      takeLast 40 (baseQuote.providerTrace
        ++ ["enrich:" ++ provider ++ "(" ++ joinWith "," filledFields ++ ")"])
    else baseQuote.providerTrace
  ({ baseQuote with
      regularMarketVolume := f1.1
      averageDailyVolume3Month := f2.1
      marketCap := f3.1
      peRatio := f4.1
      eps := f5.1
      pbRatio := f6.1
      ema50 := f7.1
      ema200 := f8.1
      thirtyWeekSma := f9.1
      marketCycleStage := f10.1
      vwap := f11.1
      upperCircuit := f12.1
      lowerCircuit := f13.1
      deliveryToTradedQuantity := f14.1
      industry := f15.1
      isin := f16.1
      faceValue := f17.1
      dayHigh := f18.1
      dayLow := f19.1
      regularMarketOpen := f20.1
      previousClose := f21.1
      fiftyTwoWeekLow := f22.1
      fiftyTwoWeekHigh := f23.1
      lastUpdateTime := f24.1
      shortName := fShort.1
      providerTrace := providerTrace }, filledFields)

/-- Embedding of `mergeQuoteMissingFields` (the returned quote). -/
def mergeQuoteMissingFields (baseQuote candidateQuote : Quote) (provider : String) : Quote :=
  (mergeQuoteMissingFieldsCore baseQuote candidateQuote provider).1

/-- Quote value with every field empty, used as a base for concrete
quote literals. -/
def blankQuote : Quote := {
  symbol := ""
  shortName := ""
  exchange := ""
  currency := ""
  regularMarketPrice := none
  regularMarketChange := none
  regularMarketChangePercent := none
  regularMarketOpen := none
  previousClose := none
  dayHigh := none
  dayLow := none
  regularMarketVolume := none
  averageDailyVolume3Month := none
  marketCap := none
  fiftyTwoWeekLow := none
  fiftyTwoWeekHigh := none
  peRatio := none
  eps := none
  pbRatio := none
  ema50 := none
  ema200 := none
  thirtyWeekSma := none
  marketCycleStage := ""
  faceValue := none
  vwap := none
  upperCircuit := none
  lowerCircuit := none
  deliveryToTradedQuantity := none
  industry := ""
  isin := ""
  lastUpdateTime := ""
  source := ""
  dataStatus := ""
  providerTrace := [] }

/-- Concrete resolved base quote whose `shortName` equals the stripped
base symbol (the placeholder default). -/
def mergeBaseQuote : Quote := { blankQuote with
  symbol := "TCS.NS"
  shortName := "TCS"
  exchange := "NSE"
  currency := "INR"
  regularMarketPrice := some 100
  ema50 := some 3
  source := "nseindia"
  dataStatus := "live"
  providerTrace := ["hit:nseindia"] }

/-- Concrete enrichment candidate carrying a vendor `shortName`. -/
def mergeCandQuote : Quote := { blankQuote with
  symbol := "TCS.NS"
  shortName := "Tata Consultancy Services"
  exchange := "NSE"
  currency := "INR"
  marketCap := some 5
  source := "yahoo"
  dataStatus := "live" }

/-- C9 counterexample: the base `shortName` is present (non-empty)
yet the merge replaces it, because it equals the stripped base symbol —
refuting the claim that only null/empty fields are filled. -/
theorem C9_merge_shortName_counterexample :
    (mergeQuoteMissingFields mergeBaseQuote mergeCandQuote "yahoo").shortName
      = "Tata Consultancy Services"
    ∧ mergeBaseQuote.shortName = "TCS"
    ∧ mergeBaseQuote.shortName ≠ ""
    ∧ (mergeQuoteMissingFields mergeBaseQuote mergeCandQuote "yahoo").shortName
      ≠ mergeBaseQuote.shortName := by decide

lemma fillNum_preserves (b c : Option ℚ) (name : String) (h : b.isSome = true) :
    (fillNum b c name).1 = b := by
  cases b with
  | none => simp at h
  | some q => simp [fillNum, isMissingNum]

lemma fillStr_preserves (b c : String) (name : String) (h : b ≠ "") :
    (fillStr b c name).1 = b := by
  simp [fillStr, isMissingStr, h]

/-- C9 as amended: the enrichment merge never changes the base quote's
symbol, source, dataStatus, regularMarketPrice (nor exchange, currency
or the change fields), leaves every already-present fillable field
unchanged, and appends one capped `enrich:provider(fields)` trace entry
exactly when the internal filled-fields list is non-empty; the one
exception is `shortName`, which is also replaced when it equals the
stripped base symbol (the placeholder default), so only a shortName that
is non-empty and differs from the placeholder is guaranteed stable. -/
theorem C9_merge_frame_and_trace :
    ∀ (baseQuote candidateQuote : Quote) (provider : String) (m : Quote),
      m = mergeQuoteMissingFields baseQuote candidateQuote provider →
      m.symbol = baseQuote.symbol
      ∧ m.source = baseQuote.source
      ∧ m.dataStatus = baseQuote.dataStatus
      ∧ m.regularMarketPrice = baseQuote.regularMarketPrice
      ∧ m.exchange = baseQuote.exchange
      ∧ m.currency = baseQuote.currency
      ∧ m.regularMarketChange = baseQuote.regularMarketChange
      ∧ m.regularMarketChangePercent = baseQuote.regularMarketChangePercent
      ∧ (baseQuote.regularMarketVolume.isSome = true →
          m.regularMarketVolume = baseQuote.regularMarketVolume)
      ∧ (baseQuote.averageDailyVolume3Month.isSome = true →
          m.averageDailyVolume3Month = baseQuote.averageDailyVolume3Month)
      ∧ (baseQuote.marketCap.isSome = true → m.marketCap = baseQuote.marketCap)
      ∧ (baseQuote.peRatio.isSome = true → m.peRatio = baseQuote.peRatio)
      ∧ (baseQuote.eps.isSome = true → m.eps = baseQuote.eps)
      ∧ (baseQuote.pbRatio.isSome = true → m.pbRatio = baseQuote.pbRatio)
      ∧ (baseQuote.ema50.isSome = true → m.ema50 = baseQuote.ema50)
      ∧ (baseQuote.ema200.isSome = true → m.ema200 = baseQuote.ema200)
      ∧ (baseQuote.thirtyWeekSma.isSome = true → m.thirtyWeekSma = baseQuote.thirtyWeekSma)
      ∧ (baseQuote.vwap.isSome = true → m.vwap = baseQuote.vwap)
      ∧ (baseQuote.upperCircuit.isSome = true → m.upperCircuit = baseQuote.upperCircuit)
      ∧ (baseQuote.lowerCircuit.isSome = true → m.lowerCircuit = baseQuote.lowerCircuit)
      ∧ (baseQuote.deliveryToTradedQuantity.isSome = true →
          m.deliveryToTradedQuantity = baseQuote.deliveryToTradedQuantity)
      ∧ (baseQuote.faceValue.isSome = true → m.faceValue = baseQuote.faceValue)
      ∧ (baseQuote.dayHigh.isSome = true → m.dayHigh = baseQuote.dayHigh)
      ∧ (baseQuote.dayLow.isSome = true → m.dayLow = baseQuote.dayLow)
      ∧ (baseQuote.regularMarketOpen.isSome = true →
          m.regularMarketOpen = baseQuote.regularMarketOpen)
      ∧ (baseQuote.previousClose.isSome = true → m.previousClose = baseQuote.previousClose)
      ∧ (baseQuote.fiftyTwoWeekLow.isSome = true →
          m.fiftyTwoWeekLow = baseQuote.fiftyTwoWeekLow)
      ∧ (baseQuote.fiftyTwoWeekHigh.isSome = true →
          m.fiftyTwoWeekHigh = baseQuote.fiftyTwoWeekHigh)
      ∧ (baseQuote.marketCycleStage ≠ "" → m.marketCycleStage = baseQuote.marketCycleStage)
      ∧ (baseQuote.industry ≠ "" → m.industry = baseQuote.industry)
      ∧ (baseQuote.isin ≠ "" → m.isin = baseQuote.isin)
      ∧ (baseQuote.lastUpdateTime ≠ "" → m.lastUpdateTime = baseQuote.lastUpdateTime)
      ∧ (baseQuote.shortName ≠ "" ∧
          baseQuote.shortName ≠ stripExchangeSuffix baseQuote.symbol →
          m.shortName = baseQuote.shortName)
      ∧ m.providerTrace =
          (if (mergeQuoteMissingFieldsCore baseQuote candidateQuote provider).2 ≠ [] then
            takeLast 40 (baseQuote.providerTrace
              ++ ["enrich:" ++ provider ++ "("
                  ++ joinWith "," (mergeQuoteMissingFieldsCore baseQuote candidateQuote
                      provider).2 ++ ")"])
          else baseQuote.providerTrace) := by
  intro baseQuote candidateQuote provider m hm
  subst hm
  refine ⟨rfl, rfl, rfl, rfl, rfl, rfl, rfl, rfl,
    fun h => fillNum_preserves _ _ _ h, fun h => fillNum_preserves _ _ _ h,
    fun h => fillNum_preserves _ _ _ h, fun h => fillNum_preserves _ _ _ h,
    fun h => fillNum_preserves _ _ _ h, fun h => fillNum_preserves _ _ _ h,
    fun h => fillNum_preserves _ _ _ h, fun h => fillNum_preserves _ _ _ h,
    fun h => fillNum_preserves _ _ _ h, fun h => fillNum_preserves _ _ _ h,
    fun h => fillNum_preserves _ _ _ h, fun h => fillNum_preserves _ _ _ h,
    fun h => fillNum_preserves _ _ _ h, fun h => fillNum_preserves _ _ _ h,
    fun h => fillNum_preserves _ _ _ h, fun h => fillNum_preserves _ _ _ h,
    fun h => fillNum_preserves _ _ _ h, fun h => fillNum_preserves _ _ _ h,
    fun h => fillNum_preserves _ _ _ h, fun h => fillNum_preserves _ _ _ h,
    fun h => fillStr_preserves _ _ _ h, fun h => fillStr_preserves _ _ _ h,
    fun h => fillStr_preserves _ _ _ h, fun h => fillStr_preserves _ _ _ h,
    ?_, rfl⟩
  rintro ⟨h1, h2⟩
  show (if (isMissingStr baseQuote.shortName
          || baseQuote.shortName = stripExchangeSuffix baseQuote.symbol)
        && !(isMissingStr candidateQuote.shortName) then
      (candidateQuote.shortName, some "shortName")
    else (baseQuote.shortName, (none : Option String))).1 = baseQuote.shortName
  simp [isMissingStr, h1, h2]

/-- Witness for C9 as amended: at the concrete quotes the merge keeps
the base symbol and the present `ema50`. -/
theorem C9_merge_frame_and_trace_witness :
    (mergeQuoteMissingFields mergeBaseQuote mergeCandQuote "yahoo").symbol
      = mergeBaseQuote.symbol
    ∧ (mergeQuoteMissingFields mergeBaseQuote mergeCandQuote "yahoo").ema50
      = mergeBaseQuote.ema50 :=
  ⟨(C9_merge_frame_and_trace mergeBaseQuote mergeCandQuote "yahoo" _ rfl).1,
   (C9_merge_frame_and_trace mergeBaseQuote mergeCandQuote "yahoo" _
      rfl).2.2.2.2.2.2.2.2.2.2.2.2.2.2.1 rfl⟩

/-- Quote-cache entry: the cached quote (null only in degenerate states)
and the write timestamp in milliseconds. -/
structure CacheEntry where
  value : Option Quote
  fetchedAt : ℤ

/-- Embedding of `cacheKey`. -/
def cacheKey (symbol : String) : String := normalizeIndianSymbol symbol

/-- Embedding of `isFresh` for the quote cache: the entry exists and its
age does not exceed the configured TTL. -/
def isFresh (now ttl : ℤ) : Option CacheEntry → Bool
  | none => false
  | some entry => decide (now - entry.fetchedAt ≤ ttl)

/-- Ambient state and effect parameters of one `getQuotes` call: the
quote-cache content at entry, the per-symbol outcome of the provider
resolution pass (`fetchQuotesFromProviders` result map and attempts
log), the technical-snapshot resolver, the clock and the configured
cache TTL. Passing these explicitly makes `getQuotes` a pure function. -/
structure QuotesEnv where
  cache : String → Option CacheEntry
  fetched : String → Option Quote
  attempts : String → List String
  getTech : String → Option ℚ → String → Option TechnicalSnapshot
  now : ℤ
  quoteTtlMs : ℤ

/-- Condition of the cache-partition step of `getQuotes`:
`isFresh(cached) && cached.value`. -/
def cacheFreshUsable (env : QuotesEnv) (symbol : String) : Bool :=
  isFresh env.now env.quoteTtlMs (env.cache (cacheKey symbol))
    && ((env.cache (cacheKey symbol)).bind (·.value)).isSome

/-- First loop of `getQuotes`: partitions the symbols into cache-fresh
entries written to the resolved map and the pending `missing` list. -/
def getQuotesStep1 (env : QuotesEnv) :
    List String → (String → Option (Option Quote)) → List String →
    (String → Option (Option Quote)) × List String
  | [], rm, missing => (rm, missing)
  | symbol :: rest, rm, missing =>
    if cacheFreshUsable env symbol then
      getQuotesStep1 env rest
        (fun k => if k = symbol then some ((env.cache (cacheKey symbol)).bind (·.value))
          else rm k)
        missing
    else getQuotesStep1 env rest rm (missing ++ [symbol])

/-- Per-symbol body of the missing-symbol loop of `getQuotes`: the
provider-fetched quote when available, else a stale/unavailable quote
from the current cache content. -/
def resolveMissingSymbol (env : QuotesEnv) (cache : String → Option CacheEntry)
    (symbol : String) : Option Quote :=
  match env.fetched symbol with
  | some fetchedQuote => some fetchedQuote
  | none => createUnavailableQuote symbol "all providers failed"
      ((cache (cacheKey symbol)).bind (·.value)) (env.attempts symbol)

/-- Second loop of `getQuotes`: resolves every missing symbol in order,
threading the cache writes (each resolved quote is written back under
its cache key before the next symbol is processed). -/
def getQuotesStep2 (env : QuotesEnv) :
    List String → (String → Option CacheEntry) → (String → Option (Option Quote)) →
    (String → Option CacheEntry) × (String → Option (Option Quote))
  | [], cache, rm => (cache, rm)
  | symbol :: rest, cache, rm =>
    let resolved := resolveMissingSymbol env cache symbol
    getQuotesStep2 env rest
      (fun k => if k = cacheKey symbol then some ⟨resolved, env.now⟩ else cache k)
      (fun k => if k = symbol then some resolved else rm k)

/-- Embedding of the per-quote body of `enrichQuotesWithTechnicals`:
usable quotes with missing technical fields are completed from the
technical snapshot (with two stage fallbacks) and get one
`technicals:<source>` trace entry. -/
def enrichQuoteWithTechnicals
    (getTech : String → Option ℚ → String → Option TechnicalSnapshot) (quote : Quote) :
    Quote :=
  if !(isUsableQuote quote) then quote
  else if !(isMissingNum quote.ema50) && !(isMissingNum quote.ema200)
      && !(isMissingStr quote.marketCycleStage) then quote
  else
    match getTech quote.symbol quote.regularMarketPrice quote.shortName with
    | none => quote
    | some technical =>
      let ema50 := if !(isMissingNum technical.ema50) then technical.ema50 else quote.ema50
      let ema200 := if !(isMissingNum technical.ema200) then technical.ema200 else quote.ema200
      let thirtyWeekSma := if !(isMissingNum technical.thirtyWeekSma) then
          technical.thirtyWeekSma
        else quote.thirtyWeekSma
      let stage0 := if !(isMissingStr technical.marketCycleStage) then
          technical.marketCycleStage
        else quote.marketCycleStage
      let stage1 := if isMissingStr stage0 then
          classifyStageFromEmaProxy quote.regularMarketPrice ema50 ema200
        else stage0
      let stage2 := if isMissingStr stage1 then
          match firstFinite [quote.regularMarketPrice], firstFinite [thirtyWeekSma] with
          | some close, some weekSma => if close ≥ weekSma then "Markup" else "Markdown"
          | _, _ => stage1
        else stage1
      { quote with
        ema50 := ema50
        ema200 := ema200
        thirtyWeekSma := thirtyWeekSma
        marketCycleStage := stage2
        providerTrace :=
          takeLast 40 (quote.providerTrace ++ ["technicals:" ++ technical.source]) }

/-- Embedding of `enrichQuotesWithTechnicals`: one output per input in
order; null and unusable quotes pass through unchanged. -/
def enrichQuotesWithTechnicals
    (getTech : String → Option ℚ → String → Option TechnicalSnapshot)
    (quotes : List (Option Quote)) : List (Option Quote) :=
  quotes.map (fun oq => oq.map (enrichQuoteWithTechnicals getTech))

/-- Embedding of `getQuotes(symbolInputs)`: normalize/deduplicate the
input, serve cache-fresh symbols, resolve the rest through the provider
outcome (falling back to stale or unavailable quotes), fill missing
technicals, and return one quote per de-duplicated symbol in order. The
final cache write-back of the enriched quotes does not affect the
returned list and is omitted. -/
def getQuotes (env : QuotesEnv) (symbolInputs : List String) : List (Option Quote) :=
  let symbols := asList symbolInputs
  if symbols = [] then []
  else
    let step1 := getQuotesStep1 env symbols (fun _ => none) []
    let final := getQuotesStep2 env step1.2 env.cache step1.1
    let baseQuotes := symbols.map (fun symbol =>
      match (final.2 symbol).join with
      | some q => some q
      | none => createUnavailableQuote symbol "not resolved" none [])
    enrichQuotesWithTechnicals env.getTech baseQuotes

lemma getQuotesStep1_snd (env : QuotesEnv) :
    ∀ (symbols : List String) (rm : String → Option (Option Quote)) (missing : List String),
      (getQuotesStep1 env symbols rm missing).2
        = missing ++ symbols.filter (fun s => !(cacheFreshUsable env s)) := by
  intro symbols
  induction symbols with
  | nil => intro rm missing; simp [getQuotesStep1]
  | cons m rest ih =>
    intro rm missing
    rw [getQuotesStep1]
    by_cases h : cacheFreshUsable env m
    · rw [if_pos h, ih, List.filter_cons]
      simp [h]
    · rw [if_neg h, ih, List.filter_cons]
      simp [h]

lemma getQuotesStep1_fst_not_mem (env : QuotesEnv) :
    ∀ (symbols : List String) (rm : String → Option (Option Quote)) (missing : List String)
      (s : String), s ∉ symbols → (getQuotesStep1 env symbols rm missing).1 s = rm s := by
  intro symbols
  induction symbols with
  | nil => intro rm missing s _; rfl
  | cons m rest ih =>
    intro rm missing s h
    have hs : s ∉ rest := fun hr => h (List.mem_cons_of_mem _ hr)
    have hsm : s ≠ m := fun he => h (he ▸ List.mem_cons_self m rest)
    rw [getQuotesStep1]
    by_cases hc : cacheFreshUsable env m
    · rw [if_pos hc, ih _ _ s hs]
      simp [hsm]
    · rw [if_neg hc, ih _ _ s hs]

lemma getQuotesStep1_fst_mem (env : QuotesEnv) :
    ∀ (symbols : List String) (rm : String → Option (Option Quote)) (missing : List String)
      (s : String), s ∈ symbols → symbols.Nodup →
      (getQuotesStep1 env symbols rm missing).1 s =
        if cacheFreshUsable env s then some ((env.cache (cacheKey s)).bind (·.value))
        else rm s := by
  intro symbols
  induction symbols with
  | nil => intro rm missing s h; simp at h
  | cons m rest ih =>
    intro rm missing s hs hnd
    rw [getQuotesStep1]
    rcases List.mem_cons.mp hs with rfl | hs
    · have hnotin : s ∉ rest := (List.nodup_cons.mp hnd).1
      by_cases hc : cacheFreshUsable env s
      · rw [if_pos hc, getQuotesStep1_fst_not_mem env rest _ _ s hnotin]
        simp [hc]
      · rw [if_neg hc, getQuotesStep1_fst_not_mem env rest _ _ s hnotin, if_neg hc]
    · have hsm : s ≠ m := fun he => (List.nodup_cons.mp hnd).1 (he ▸ hs)
      by_cases hc : cacheFreshUsable env m
      · rw [if_pos hc, ih _ _ s hs (List.nodup_cons.mp hnd).2]
        by_cases hcs : cacheFreshUsable env s
        · rw [if_pos hcs, if_pos hcs]
        · rw [if_neg hcs, if_neg hcs]
          simp [hsm]
      · rw [if_neg hc, ih _ _ s hs (List.nodup_cons.mp hnd).2]

lemma getQuotesStep2_rm_not_mem (env : QuotesEnv) :
    ∀ (missing : List String) (cache : String → Option CacheEntry)
      (rm : String → Option (Option Quote)) (s : String), s ∉ missing →
      (getQuotesStep2 env missing cache rm).2 s = rm s := by
  intro missing
  induction missing with
  | nil => intro cache rm s _; rfl
  | cons m rest ih =>
    intro cache rm s h
    have hs : s ∉ rest := fun hr => h (List.mem_cons_of_mem _ hr)
    have hsm : s ≠ m := fun he => h (he ▸ List.mem_cons_self m rest)
    rw [getQuotesStep2, ih _ _ s hs]
    simp [hsm]

lemma getQuotesStep2_rm_mem (env : QuotesEnv) :
    ∀ (missing : List String) (cache : String → Option CacheEntry)
      (rm : String → Option (Option Quote)) (s : String),
      s ∈ missing → missing.Nodup → (∀ m ∈ missing, cacheKey m = m) →
      (getQuotesStep2 env missing cache rm).2 s =
        some (resolveMissingSymbol env cache s) := by
  intro missing
  induction missing with
  | nil => intro cache rm s h; simp at h
  | cons m rest ih =>
    intro cache rm s hs hnd hck
    rw [getQuotesStep2]
    rcases List.mem_cons.mp hs with rfl | hs
    · have hnotin : s ∉ rest := (List.nodup_cons.mp hnd).1
      rw [getQuotesStep2_rm_not_mem env rest _ _ s hnotin]
      simp
    · have hsm : s ≠ m := fun he => (List.nodup_cons.mp hnd).1 (he ▸ hs)
      rw [ih _ _ s hs (List.nodup_cons.mp hnd).2
        (fun x hx => hck x (List.mem_cons_of_mem _ hx))]
      have hkm : cacheKey m = m := hck m (List.mem_cons_self m rest)
      have hks : cacheKey s = s := hck s (List.mem_cons_of_mem _ hs)
      simp only [resolveMissingSymbol, hkm, hks, hsm, if_false, if_neg hsm]

lemma createUnavailableQuote_stale_spec (symbol reason : String) (staleQ : Quote)
    (attempts : List String) :
    ∃ q, createUnavailableQuote symbol reason (some staleQ) attempts = some q
      ∧ q.symbol = staleQ.symbol ∧ q.dataStatus = "stale"
      ∧ q.regularMarketPrice = staleQ.regularMarketPrice
      ∧ q.source = (if jsIncludes (if staleQ.source ≠ "" then staleQ.source else "unknown")
            ":stale" then (if staleQ.source ≠ "" then staleQ.source else "unknown")
          else (if staleQ.source ≠ "" then staleQ.source else "unknown") ++ ":stale") :=
  ⟨_, rfl, rfl, rfl, rfl, rfl⟩

lemma createUnavailableQuote_none_spec (symbol reason : String) (attempts : List String)
    (h : normalizeIndianSymbol symbol ≠ "") :
    ∃ q, createUnavailableQuote symbol reason none attempts = some q
      ∧ q.symbol = normalizeIndianSymbol symbol
      ∧ q.dataStatus = "unavailable" ∧ q.regularMarketPrice = none := by
  simp only [createUnavailableQuote, normalizeQuoteShape]
  rw [if_neg h]
  exact ⟨_, rfl, rfl, rfl, rfl⟩

lemma enrichQuote_frame
    (getTech : String → Option ℚ → String → Option TechnicalSnapshot) (q : Quote) :
    (enrichQuoteWithTechnicals getTech q).symbol = q.symbol
    ∧ (enrichQuoteWithTechnicals getTech q).regularMarketPrice = q.regularMarketPrice
    ∧ (enrichQuoteWithTechnicals getTech q).dataStatus = q.dataStatus
    ∧ (enrichQuoteWithTechnicals getTech q).source = q.source := by
  unfold enrichQuoteWithTechnicals
  split
  · exact ⟨rfl, rfl, rfl, rfl⟩
  · split
    · exact ⟨rfl, rfl, rfl, rfl⟩
    · split
      · exact ⟨rfl, rfl, rfl, rfl⟩
      · exact ⟨rfl, rfl, rfl, rfl⟩

lemma option_join_some {α : Type} (x : Option α) : (some x).join = x := rfl

/-- Source tagging of a stale fallback quote: `unknown` for a blank
source, then `:stale` appended unless already present. -/
def staleSourceOf (source : String) : String :=
  let rawSource := if source ≠ "" then source else "unknown"
  if jsIncludes rawSource ":stale" then rawSource else rawSource ++ ":stale"

lemma getQuotes_base_spec (env : QuotesEnv) (symbolInputs : List String)
    (hCache : ∀ s e q, env.cache s = some e → e.value = some q → q.symbol = s)
    (hFetch : ∀ s q, env.fetched s = some q → q.symbol = s)
    (hFix : ∀ s ∈ asList symbolInputs, normalizeIndianSymbol s = s)
    (i : ℕ) (hi : i < (asList symbolInputs).length) :
    ∃ base : Quote,
      (getQuotes env symbolInputs).get? i =
        some (some (enrichQuoteWithTechnicals env.getTech base))
      ∧ base.symbol = (asList symbolInputs).get ⟨i, hi⟩
      ∧ (cacheFreshUsable env ((asList symbolInputs).get ⟨i, hi⟩) = false →
          env.fetched ((asList symbolInputs).get ⟨i, hi⟩) = none →
          (∀ entry prevQ, env.cache ((asList symbolInputs).get ⟨i, hi⟩) = some entry →
            entry.value = some prevQ →
            base.dataStatus = "stale"
            ∧ base.regularMarketPrice = prevQ.regularMarketPrice
            ∧ base.source = staleSourceOf prevQ.source)
          ∧ (env.cache ((asList symbolInputs).get ⟨i, hi⟩) = none →
            base.dataStatus = "unavailable" ∧ base.regularMarketPrice = none)) := by
  have hnodup : (asList symbolInputs).Nodup := asList_nodup symbolInputs
  set symbols := asList symbolInputs with hsymbols
  set s := symbols.get ⟨i, hi⟩ with hsdef
  have hs : s ∈ symbols := List.get_mem symbols i hi
  have hkey : ∀ m ∈ symbols, cacheKey m = m := fun m hm => hFix m hm
  have hks : cacheKey s = s := hkey s hs
  have hsne : ¬(symbols = []) := by
    intro h
    rw [h] at hi
    simp at hi
  have hget : symbols.get? i = some s := List.get?_eq_get hi
  -- reduce the output at index i to the per-symbol base value
  rw [getQuotes]
  simp only [← hsymbols, if_neg hsne, enrichQuotesWithTechnicals, List.get?_map, hget,
    Option.map_some']
  set step1 := getQuotesStep1 env symbols (fun _ => none) [] with hstep1
  set final := getQuotesStep2 env step1.2 env.cache step1.1 with hfinal
  have hmissing : step1.2 = symbols.filter (fun x => !(cacheFreshUsable env x)) := by
    rw [hstep1, getQuotesStep1_snd]
    simp
  by_cases hfc : cacheFreshUsable env s
  · -- cache-fresh: the resolved map holds the cached quote
    have hnotmiss : s ∉ step1.2 := by
      rw [hmissing]
      intro hmem
      have := (List.mem_filter.mp hmem).2
      simp [hfc] at this
    have hrm : final.2 s = step1.1 s :=
      getQuotesStep2_rm_not_mem env step1.2 env.cache step1.1 s hnotmiss
    have hfst : step1.1 s = some ((env.cache (cacheKey s)).bind (·.value)) := by
      rw [hstep1, getQuotesStep1_fst_mem env symbols _ _ s hs hnodup, if_pos hfc]
    have hsome : ((env.cache (cacheKey s)).bind (·.value)).isSome = true := by
      have h := hfc
      unfold cacheFreshUsable at h
      simp only [Bool.and_eq_true] at h
      exact h.2
    obtain ⟨prevQ, hprev⟩ := Option.isSome_iff_exists.mp hsome
    obtain ⟨entry, hentry, hval⟩ : ∃ e, env.cache (cacheKey s) = some e
        ∧ e.value = some prevQ := by
      cases hc : env.cache (cacheKey s) with
      | none => rw [hc] at hprev; simp at hprev
      | some e => rw [hc] at hprev; exact ⟨e, rfl, by simpa using hprev⟩
    refine ⟨prevQ, ?_, ?_, ?_⟩
    · rw [hrm, hfst, hprev]
      rfl
    · exact hCache (cacheKey s) entry prevQ hentry hval |>.trans hks
    · intro hfcfalse
      rw [hfc] at hfcfalse
      cases hfcfalse
  · -- missing: resolved through the provider outcome or the fallbacks
    have hmem : s ∈ step1.2 := by
      rw [hmissing]
      exact List.mem_filter.mpr ⟨hs, by simp [hfc]⟩
    have hnd2 : step1.2.Nodup := by
      rw [hmissing]
      exact hnodup.filter _
    have hck2 : ∀ m ∈ step1.2, cacheKey m = m := by
      intro m hm
      rw [hmissing] at hm
      exact hkey m (List.mem_filter.mp hm).1
    have hrm : final.2 s = some (resolveMissingSymbol env env.cache s) :=
      getQuotesStep2_rm_mem env step1.2 env.cache step1.1 s hmem hnd2 hck2
    cases hfe : env.fetched s with
    | some fq =>
      refine ⟨fq, ?_, hFetch s fq hfe, ?_⟩
      · rw [hrm]
        simp only [resolveMissingSymbol, hfe]
        rfl
      · intro _ hfenone
        simp [hfe] at hfenone
    | none =>
      cases hcv : (env.cache s).bind (·.value) with
      | some prevQ =>
        obtain ⟨entry, hentry, hval⟩ : ∃ e, env.cache s = some e ∧ e.value = some prevQ := by
          cases hc : env.cache s with
          | none => rw [hc] at hcv; simp at hcv
          | some e => rw [hc] at hcv; exact ⟨e, rfl, by simpa using hcv⟩
        obtain ⟨q, hq, hqsym, hqds, hqprice, hqsrc⟩ :=
          createUnavailableQuote_stale_spec s "all providers failed" prevQ (env.attempts s)
        refine ⟨q, ?_, ?_, ?_⟩
        · rw [hrm]
          simp only [resolveMissingSymbol, hfe, hks, hcv, hq]
          rfl
        · rw [hqsym]
          exact hCache s entry prevQ hentry hval
        · intro _ _
          constructor
          · intro entry2 prevQ2 hentry2 hval2
            rw [hentry] at hentry2
            injection hentry2 with he
            subst he
            rw [hval] at hval2
            injection hval2 with hv
            subst hv
            exact ⟨hqds, hqprice, by rw [hqsrc]; rfl⟩
          · intro hnone
            rw [hentry] at hnone
            cases hnone
      | none =>
        have hnorm : normalizeIndianSymbol s = s := hFix s hs
        have hne : normalizeIndianSymbol s ≠ "" := by
          rw [hnorm]
          exact asList_mem_ne_empty symbolInputs s hs
        obtain ⟨q, hq, hqsym, hqds, hqprice⟩ :=
          createUnavailableQuote_none_spec s "all providers failed" (env.attempts s) hne
        refine ⟨q, ?_, ?_, ?_⟩
        · rw [hrm]
          simp only [resolveMissingSymbol, hfe, hks, hcv, hq]
          rfl
        · rw [hqsym, hnorm]
        · intro _ _
          constructor
          · intro entry prevQ hentry hval
            exfalso
            rw [hentry] at hcv
            simp [hval] at hcv
          · intro _
            exact ⟨hqds, hqprice⟩

/-- C1: under the cache/provider key invariants (every cached or fetched
quote is stored under its own symbol) and for inputs whose normalized
symbols are fixed points of the normalizer, `getQuotes` returns exactly
one quote per entry of the normalized, de-duplicated symbol list, in
order: the i-th output is a well-formed quote whose symbol is the i-th
de-duplicated symbol. -/
theorem C1_getQuotes_length_and_order :
    ∀ (env : QuotesEnv) (symbolInputs : List String),
      (∀ s e q, env.cache s = some e → e.value = some q → q.symbol = s) →
      (∀ s q, env.fetched s = some q → q.symbol = s) →
      (∀ s ∈ asList symbolInputs, normalizeIndianSymbol s = s) →
      (getQuotes env symbolInputs).length = (asList symbolInputs).length
      ∧ ∀ i (hi : i < (asList symbolInputs).length),
          ∃ q : Quote, (getQuotes env symbolInputs).get? i = some (some q)
            ∧ q.symbol = (asList symbolInputs).get ⟨i, hi⟩ := by
  intro env symbolInputs hCache hFetch hFix
  constructor
  · by_cases h : asList symbolInputs = []
    · rw [getQuotes]
      simp [h]
    · rw [getQuotes]
      simp [h, enrichQuotesWithTechnicals]
  · intro i hi
    obtain ⟨base, hout, hsym, -⟩ :=
      getQuotes_base_spec env symbolInputs hCache hFetch hFix i hi
    exact ⟨enrichQuoteWithTechnicals env.getTech base, hout,
      (enrichQuote_frame env.getTech base).1.trans hsym⟩

/-- Environment with an empty cache and no provider results. -/
def trivialQuotesEnv : QuotesEnv := {
  cache := fun _ => none
  fetched := fun _ => none
  attempts := fun _ => []
  getTech := fun _ _ _ => none
  now := 0
  quoteTtlMs := 0 }

/-- Witness for C1: three raw inputs normalize and deduplicate to two
symbols; the first output quote is for `TCS.NS`. -/
theorem C1_getQuotes_length_and_order_witness :
    (getQuotes trivialQuotesEnv ["TCS.NS", "tcs", "INFY"]).length
      = (asList ["TCS.NS", "tcs", "INFY"]).length
    ∧ ∃ q : Quote, (getQuotes trivialQuotesEnv ["TCS.NS", "tcs", "INFY"]).get? 0
        = some (some q) ∧ q.symbol = "TCS.NS" := by
  have h := C1_getQuotes_length_and_order trivialQuotesEnv ["TCS.NS", "tcs", "INFY"]
    (fun s e q hse _ => by simp [trivialQuotesEnv] at hse)
    (fun s q hs => by simp [trivialQuotesEnv] at hs)
    (by decide)
  refine ⟨h.1, ?_⟩
  obtain ⟨q, hq, hsym⟩ := h.2 0 (by decide)
  exact ⟨q, hq, by rw [hsym]; decide⟩

/-- C2: for a requested symbol that is not cache-fresh and for which the
provider pass yields no usable quote, the returned quote is the previous
cache entry marked `stale` with its price preserved and its source
suffixed `:stale` when such an entry exists, and an `unavailable` quote
with a null price otherwise. -/
theorem C2_getQuotes_stale_and_unavailable :
    ∀ (env : QuotesEnv) (symbolInputs : List String) (i : ℕ)
      (hi : i < (asList symbolInputs).length),
      (∀ s e q, env.cache s = some e → e.value = some q → q.symbol = s) →
      (∀ s q, env.fetched s = some q → q.symbol = s) →
      (∀ s ∈ asList symbolInputs, normalizeIndianSymbol s = s) →
      cacheFreshUsable env ((asList symbolInputs).get ⟨i, hi⟩) = false →
      env.fetched ((asList symbolInputs).get ⟨i, hi⟩) = none →
      (∀ entry prevQ, env.cache ((asList symbolInputs).get ⟨i, hi⟩) = some entry →
          entry.value = some prevQ →
          ∃ q : Quote, (getQuotes env symbolInputs).get? i = some (some q)
            ∧ q.dataStatus = "stale"
            ∧ q.regularMarketPrice = prevQ.regularMarketPrice
            ∧ q.source = staleSourceOf prevQ.source)
      ∧ (env.cache ((asList symbolInputs).get ⟨i, hi⟩) = none →
          ∃ q : Quote, (getQuotes env symbolInputs).get? i = some (some q)
            ∧ q.dataStatus = "unavailable" ∧ q.regularMarketPrice = none) := by
  intro env symbolInputs i hi hCache hFetch hFix hfc hfe
  obtain ⟨base, hout, hsym, hspec⟩ :=
    getQuotes_base_spec env symbolInputs hCache hFetch hFix i hi
  obtain ⟨hstale, hunav⟩ := hspec hfc hfe
  constructor
  · intro entry prevQ hentry hval
    obtain ⟨hds, hprice, hsrc⟩ := hstale entry prevQ hentry hval
    refine ⟨enrichQuoteWithTechnicals env.getTech base, hout, ?_, ?_, ?_⟩
    · rw [(enrichQuote_frame env.getTech base).2.2.1, hds]
    · rw [(enrichQuote_frame env.getTech base).2.1, hprice]
    · rw [(enrichQuote_frame env.getTech base).2.2.2, hsrc]
  · intro hnone
    obtain ⟨hds, hprice⟩ := hunav hnone
    refine ⟨enrichQuoteWithTechnicals env.getTech base, hout, ?_, ?_⟩
    · rw [(enrichQuote_frame env.getTech base).2.2.1, hds]
    · rw [(enrichQuote_frame env.getTech base).2.1, hprice]

/-- Previously cached quote for the stale-fallback scenario: price 2500
from source `nseindia`. -/
def staleCacheQuote : Quote := { blankQuote with
  symbol := "RELIANCE.NS"
  shortName := "RELIANCE"
  regularMarketPrice := some 2500
  source := "nseindia"
  dataStatus := "cached"
  providerTrace := ["hit:nseindia"] }

/-- Environment with an expired cache entry for `RELIANCE.NS` and no
provider results: every provider fails and only the stale entry
remains. -/
def staleQuotesEnv : QuotesEnv := {
  cache := fun k => if k = "RELIANCE.NS" then some ⟨some staleCacheQuote, 0⟩ else none
  fetched := fun _ => none
  attempts := fun _ => []
  getTech := fun _ _ _ => none
  now := 1000000
  quoteTtlMs := 60000 }

/-- Witness for C2: all providers fail and a prior cache entry with
price 2500 exists, so the returned quote keeps price 2500, has
dataStatus `stale` and source `nseindia:stale`. -/
theorem C2_getQuotes_stale_and_unavailable_witness :
    ∃ q : Quote, (getQuotes staleQuotesEnv ["RELIANCE.NS"]).get? 0 = some (some q)
      ∧ q.dataStatus = "stale" ∧ q.regularMarketPrice = some 2500
      ∧ q.source = staleSourceOf "nseindia" := by
  have hCache : ∀ s e q, staleQuotesEnv.cache s = some e → e.value = some q →
      q.symbol = s := by
    intro s e q hse hv
    by_cases hk : s = "RELIANCE.NS"
    · subst hk
      have h0 : staleQuotesEnv.cache "RELIANCE.NS" = some ⟨some staleCacheQuote, 0⟩ := rfl
      rw [h0] at hse
      obtain rfl : (⟨some staleCacheQuote, 0⟩ : CacheEntry) = e := Option.some.inj hse
      obtain rfl : staleCacheQuote = q := Option.some.inj hv
      rfl
    · have h0 : staleQuotesEnv.cache s = none := by simp [staleQuotesEnv, hk]
      rw [h0] at hse
      exact Option.noConfusion hse
  have h := C2_getQuotes_stale_and_unavailable staleQuotesEnv ["RELIANCE.NS"] 0 (by decide)
    hCache (fun s q hs => by simp [staleQuotesEnv] at hs) (by decide) (by decide) (by decide)
  obtain ⟨q, hq, hds, hprice, hsrc⟩ :=
    h.1 ⟨some staleCacheQuote, 0⟩ staleCacheQuote rfl rfl
  exact ⟨q, hq, hds, hprice, hsrc⟩

/-- Canonical quarterly financial report shape. -/
structure FinancialReport where
  symbol : String
  companyName : String
  source : String
  sourceUrl : String
  dataStatus : String
  updatedAt : String
  quarterLabels : List String
  rows : List FinancialRow
  providerTrace : List String
  message : String
deriving DecidableEq

/-- Entry of the quarterly financial cache. -/
structure FinCacheEntry where
  value : Option FinancialReport
  fetchedAt : ℤ

/-- Success TTL of the quarterly financial cache (6 hours). -/
def QUARTERLY_FINANCIAL_CACHE_TTL_MS : ℤ := 6 * 60 * 60 * 1000

/-- TTL applied to unavailable quarterly results (zero: never fresh). -/
def QUARTERLY_FINANCIAL_UNAVAILABLE_CACHE_TTL_MS : ℤ := 0

/-- Embedding of JS `String.prototype.toLowerCase` (ASCII). -/
def jsToLower (s : String) : String := ⟨s.data.map Char.toLower⟩

/-- Embedding of `isQuarterlyFinancialFresh`: false for a missing or
valueless entry; otherwise the TTL is the 6-hour success TTL when the
report has rows or is marked available, and the zero unavailable TTL
otherwise; a non-positive TTL is never fresh. -/
def isQuarterlyFinancialFresh (now : ℤ) : Option FinCacheEntry → Bool
  | none => false
  | some entry =>
    match entry.value with
    | none => false
    | some report =>
      let hasRows := !report.rows.isEmpty
      let dataStatus := jsToLower report.dataStatus
      let isAvailable := hasRows || dataStatus = "available"
      let ttl := if isAvailable then QUARTERLY_FINANCIAL_CACHE_TTL_MS
        else QUARTERLY_FINANCIAL_UNAVAILABLE_CACHE_TTL_MS
      if ttl ≤ 0 then false
      else decide (now - entry.fetchedAt ≤ ttl)

/-- Response of `fetchScreenerHtmlForSymbol`: raw HTML and source URL. -/
structure ScreenerPage where
  html : String
  url : String

/-- Output of `parseQuarterlyFinancialsFromScreenerHtml`. -/
structure ParsedFinancials where
  companyName : String
  quarterLabels : List String
  rows : List FinancialRow

/-- Ambient parameters of one `getQuarterlyFinancials` call: the symbol
candidate builder, the HTML fetcher (errors modelled as `Except`), the
HTML parser, the quarterly cache content, the clock and its ISO form. -/
structure FinEnv where
  candidates : String → List String
  fetchPage : String → Except String ScreenerPage
  parse : String → String → ℤ → ParsedFinancials
  cache : String → Option FinCacheEntry
  now : ℤ
  nowIso : String

/-- Diagnostic message of the terminal unavailable report. -/
def quarterlyUnavailableMessage : String :=
  "Quarterly financial data is currently unavailable for this symbol. This might be due to: 1) The stock may not have quarterly financial data available, 2) The data source is temporarily unreachable, or 3) The symbol format may not be recognized. Please try refreshing the page or check if the symbol is correct."

/-- Embedding of the candidate loop of `getQuarterlyFinancials`: tries
each site candidate, converting fetch errors and empty pages into trace
entries, returns the first parse with rows, remembers the last rowless
parse, and falls back to it or to a terminal unavailable report. -/
def finCandidatesLoop (env : FinEnv) (symbol : String) (limit : ℤ) :
    List String → List String → Option FinancialReport → FinancialReport
  | [], trace, lastUnavailable =>
    lastUnavailable.getD {
      symbol := symbol
      companyName := stripExchangeSuffix symbol
      source := "screener"
      sourceUrl := ""
      dataStatus := "unavailable"
      updatedAt := env.nowIso
      quarterLabels := []
      rows := []
      providerTrace := if trace ≠ [] then takeLast 40 trace else ["screener:miss"]
      message := quarterlyUnavailableMessage }
  | candidate :: rest, trace, lastUnavailable =>
    match env.fetchPage candidate with
    | .error err =>
      finCandidatesLoop env symbol limit rest
        (trace ++ ["screener:error:" ++ candidate ++ ":" ++ err]) lastUnavailable
    | .ok page =>
      if page.html = "" then
        finCandidatesLoop env symbol limit rest (trace ++ ["screener:miss:" ++ candidate])
          lastUnavailable
      else
        let parsed := env.parse candidate page.html limit
        let hasRows := !parsed.rows.isEmpty
        let response : FinancialReport := {
          symbol := symbol
          companyName := if parsed.companyName ≠ "" then parsed.companyName
            else stripExchangeSuffix symbol
          source := "screener"
          sourceUrl := page.url
          dataStatus := if hasRows then "available" else "unavailable"
          updatedAt := env.nowIso
          quarterLabels := parsed.quarterLabels
          rows := parsed.rows
          providerTrace := takeLast 40 (trace ++ ["screener:hit:" ++ candidate])
          message := if hasRows then ""
            else "Quarterly financial table is not available for this stock right now." }
        if hasRows then response
        else finCandidatesLoop env symbol limit rest trace (some response)

/-- Clamping of the quarter-count limit:
`Math.min(Math.max(Number(options.limit) || 6, 1), 8)` (a missing or
zero, i.e. falsy, limit defaults to 6). -/
def jsLimit (optLimit : Option ℤ) : ℤ :=
  let n := match optLimit with
    | none => 6
    | some v => if v = 0 then 6 else v
  min (max n 1) 8

/-- Embedding of `getQuarterlyFinancials(symbolInput, options)`: throws
(`Except.error`) only for an unnormalizable symbol; otherwise serves a
fresh cache entry for the `(symbol, limit)` key unless `forceRefresh`,
and else re-runs the candidate scrape loop. The cache write-back does
not affect the returned value and is omitted. -/
def getQuarterlyFinancials (env : FinEnv) (symbolInput : String) (optLimit : Option ℤ)
    (forceRefresh : Bool) : Except String FinancialReport :=
  let symbol := normalizeIndianSymbol symbolInput
  if symbol = "" then .error "Invalid stock symbol."
  else
    let limit := jsLimit optLimit
    let key := symbol ++ ":" ++ toString limit
    let cached := env.cache key
    if !forceRefresh && isQuarterlyFinancialFresh env.now cached then
      match cached.bind (·.value) with
      | some report => .ok report
      | none => .ok (finCandidatesLoop env symbol limit (env.candidates symbol) [] none)
    else .ok (finCandidatesLoop env symbol limit (env.candidates symbol) [] none)

lemma finCandidatesLoop_status (env : FinEnv) (symbol : String) (limit : ℤ) :
    ∀ (cands : List String) (trace : List String) (lastU : Option FinancialReport),
      (∀ r, lastU = some r → r.dataStatus = "unavailable" ∧ r.message ≠ "") →
      (finCandidatesLoop env symbol limit cands trace lastU).dataStatus = "available"
      ∨ ((finCandidatesLoop env symbol limit cands trace lastU).dataStatus = "unavailable"
          ∧ (finCandidatesLoop env symbol limit cands trace lastU).message ≠ "") := by
  intro cands
  induction cands with
  | nil =>
    intro trace lastU hlast
    cases hl : lastU with
    | none => right; rw [finCandidatesLoop]; simp [hl, quarterlyUnavailableMessage]
    | some r =>
      right
      rw [finCandidatesLoop]
      simpa [hl] using hlast r hl
  | cons candidate rest ih =>
    intro trace lastU hlast
    rw [finCandidatesLoop]
    cases hf : env.fetchPage candidate with
    | error err => exact ih _ _ hlast
    | ok page =>
      dsimp only
      by_cases hh : page.html = ""
      · rw [if_pos hh]
        exact ih _ _ hlast
      · rw [if_neg hh]
        by_cases hr : (!(env.parse candidate page.html limit).rows.isEmpty) = true
        · rw [if_pos hr]
          left
          simp [hr]
        · rw [if_neg hr]
          refine ih _ _ ?_
          intro r hrr
          rw [Option.some_inj] at hrr
          subst hrr
          constructor
          · simp [hr]
          · simp only [Bool.not_eq_true] at hr
            simp [hr]

/-- C3 as amended: for every symbol input that normalizes to a non-empty
canonical symbol, `getQuarterlyFinancials` returns a report and never
throws, and every report produced by the scrape loop is either
`available` or `unavailable` with a non-empty human-readable message;
the one exception is an unnormalizable (e.g. empty) symbol input, on
which the function throws `Invalid stock symbol.` before any provider
work. -/
theorem C3_getQuarterlyFinancials_total :
    (∀ (env : FinEnv) (symbolInput : String) (optLimit : Option ℤ) (forceRefresh : Bool),
      normalizeIndianSymbol symbolInput ≠ "" →
      ∃ report : FinancialReport,
        getQuarterlyFinancials env symbolInput optLimit forceRefresh = .ok report)
    ∧ (∀ (env : FinEnv) (symbol : String) (limit : ℤ) (cands : List String),
      (finCandidatesLoop env symbol limit cands [] none).dataStatus = "available"
      ∨ ((finCandidatesLoop env symbol limit cands [] none).dataStatus = "unavailable"
          ∧ (finCandidatesLoop env symbol limit cands [] none).message ≠ "")) := by
  constructor
  · intro env symbolInput optLimit forceRefresh h
    simp only [getQuarterlyFinancials]
    rw [if_neg h]
    split
    · split
      · exact ⟨_, rfl⟩
      · exact ⟨_, rfl⟩
    · exact ⟨_, rfl⟩
  · intro env symbol limit cands
    exact finCandidatesLoop_status env symbol limit cands [] none (fun r hr => by cases hr)

/-- Rowless cached report used to exercise the unavailable-cache
behavior. -/
def unavailableReportEx : FinancialReport := {
  symbol := "ABC.NS"
  companyName := "ABC"
  source := "screener"
  sourceUrl := ""
  dataStatus := "unavailable"
  updatedAt := "2024-01-01T00:00:00.000Z"
  quarterLabels := []
  rows := []
  providerTrace := ["screener:miss"]
  message := "Quarterly financial table is not available for this stock right now." }

/-- Environment whose cache holds a one-second-old unavailable report
for `ABC.NS:6` while the site now parses into one sales row. -/
def finEnvEx : FinEnv := {
  candidates := fun _ => ["ABC.NS"]
  fetchPage := fun _ => .ok ⟨"<html>quarterly</html>", "https://site/abc"⟩
  parse := fun _ _ _ => ⟨"ABC Ltd", ["Mar 2024"], [⟨"sales", "Sales", "number", [some 10]⟩]⟩
  cache := fun k => if k = "ABC.NS:6" then some ⟨some unavailableReportEx, 999000⟩ else none
  now := 1000000
  nowIso := "2024-01-01T00:00:01.000Z" }

/-- C3 counterexample: the empty symbol input does not normalize, and
the call throws `Invalid stock symbol.` instead of returning a report —
refuting the claim as stated for every symbol input. -/
theorem C3_invalid_symbol_counterexample :
    getQuarterlyFinancials finEnvEx "" none false = .error "Invalid stock symbol." := rfl

/-- Witness for C3 as amended: a normalizable symbol always produces an
`ok` report. -/
theorem C3_getQuarterlyFinancials_total_witness :
    ∃ report : FinancialReport,
      getQuarterlyFinancials finEnvEx "ABC.NS" none false = .ok report :=
  C3_getQuarterlyFinancials_total.1 finEnvEx "ABC.NS" none false (by decide)

/-- C6: a cached quarterly report without rows marked unavailable is
never fresh (so the next call re-runs the scrape loop), while a cached
report with rows is fresh exactly within the 6-hour success TTL (and is
then returned as-is without scraping). -/
theorem C6_unavailable_results_not_served_from_cache :
    (∀ (now : ℤ) (entry : FinCacheEntry) (report : FinancialReport),
        entry.value = some report → report.rows = [] → report.dataStatus = "unavailable" →
        isQuarterlyFinancialFresh now (some entry) = false)
    ∧ (∀ (now : ℤ) (entry : FinCacheEntry) (report : FinancialReport),
        entry.value = some report → report.rows ≠ [] →
        (isQuarterlyFinancialFresh now (some entry) = true ↔
          now - entry.fetchedAt ≤ QUARTERLY_FINANCIAL_CACHE_TTL_MS))
    ∧ (∀ (env : FinEnv) (symbolInput : String) (optLimit : Option ℤ)
        (entry : FinCacheEntry) (report : FinancialReport),
        env.cache (normalizeIndianSymbol symbolInput ++ ":" ++ toString (jsLimit optLimit))
          = some entry →
        entry.value = some report → report.rows = [] → report.dataStatus = "unavailable" →
        normalizeIndianSymbol symbolInput ≠ "" →
        getQuarterlyFinancials env symbolInput optLimit false =
          .ok (finCandidatesLoop env (normalizeIndianSymbol symbolInput) (jsLimit optLimit)
            (env.candidates (normalizeIndianSymbol symbolInput)) [] none))
    ∧ (∀ (env : FinEnv) (symbolInput : String) (optLimit : Option ℤ)
        (entry : FinCacheEntry) (report : FinancialReport),
        env.cache (normalizeIndianSymbol symbolInput ++ ":" ++ toString (jsLimit optLimit))
          = some entry →
        entry.value = some report → report.rows ≠ [] →
        env.now - entry.fetchedAt ≤ QUARTERLY_FINANCIAL_CACHE_TTL_MS →
        normalizeIndianSymbol symbolInput ≠ "" →
        getQuarterlyFinancials env symbolInput optLimit false = .ok report) := by
  have hfreshFalse : ∀ (now : ℤ) (entry : FinCacheEntry) (report : FinancialReport),
      entry.value = some report → report.rows = [] → report.dataStatus = "unavailable" →
      isQuarterlyFinancialFresh now (some entry) = false := by
    intro now entry report hval hrows hds
    simp [isQuarterlyFinancialFresh, hval, hrows, hds, jsToLower,
      QUARTERLY_FINANCIAL_UNAVAILABLE_CACHE_TTL_MS]
  have hfreshRows : ∀ (now : ℤ) (entry : FinCacheEntry) (report : FinancialReport),
      entry.value = some report → report.rows ≠ [] →
      (isQuarterlyFinancialFresh now (some entry) = true ↔
        now - entry.fetchedAt ≤ QUARTERLY_FINANCIAL_CACHE_TTL_MS) := by
    intro now entry report hval hrows
    have hne : report.rows.isEmpty = false := by
      cases hr : report.rows with
      | nil => exact absurd hr hrows
      | cons a l => rfl
    simp [isQuarterlyFinancialFresh, hval, hne, QUARTERLY_FINANCIAL_CACHE_TTL_MS]
  refine ⟨hfreshFalse, hfreshRows, ?_, ?_⟩
  · intro env symbolInput optLimit entry report hcache hval hrows hds hnorm
    simp only [getQuarterlyFinancials]
    rw [if_neg hnorm]
    rw [if_neg]
    simp only [hcache, Bool.not_false, Bool.true_and]
    rw [hfreshFalse env.now entry report hval hrows hds]
    simp
  · intro env symbolInput optLimit entry report hcache hval hrows hage hnorm
    simp only [getQuarterlyFinancials]
    rw [if_neg hnorm]
    rw [if_pos]
    · simp [hcache, hval]
    · simp only [hcache, Bool.not_false, Bool.true_and]
      exact (hfreshRows env.now entry report hval hrows).mpr hage

/-- Witness for C6: with a stale unavailable entry cached for
`ABC.NS:6`, the call re-runs the scrape and (since the page now parses)
produces an available report instead of the cached one. -/
theorem C6_unavailable_results_not_served_from_cache_witness :
    getQuarterlyFinancials finEnvEx "ABC.NS" none false
      = .ok (finCandidatesLoop finEnvEx (normalizeIndianSymbol "ABC.NS") (jsLimit none)
          (finEnvEx.candidates (normalizeIndianSymbol "ABC.NS")) [] none)
    ∧ (finCandidatesLoop finEnvEx (normalizeIndianSymbol "ABC.NS") (jsLimit none)
        (finEnvEx.candidates (normalizeIndianSymbol "ABC.NS")) [] none).dataStatus
      = "available" := by
  refine ⟨?_, by decide⟩
  exact C6_unavailable_results_not_served_from_cache.2.2.1 finEnvEx "ABC.NS" none
    ⟨some unavailableReportEx, 999000⟩ unavailableReportEx rfl rfl rfl rfl (by decide)

end StockBot
